import Mathlib

/-!
# Verification of the backupmail core against its specification

Shallow embedding of the provider-normalization and exporter/importer layer
of the backupmail repository (TypeScript).  Strings are modelled by Lean
`String`; JS `string.split('\n')` / joins are modelled by explicit
structurally-recursive functions on `List Char` so that all definitions are
executable and amenable to induction.  JS `Date` objects are opaque to the
code under verification except through their three serialization methods
(`toString`, `toUTCString`, `toISOString`); the model therefore carries those
serialized forms as data.  Nondeterministic MIME boundary generation
(`Date.now()` + `Math.random()`) is modelled by an explicit `boundary`
parameter, universally quantified in all theorems.
-/

namespace Backupmail

/-- ASCII part of the JS `\s` class / `String.prototype.trim` whitespace set. -/
def jsWs (c : Char) : Bool :=
  c = ' ' || c = '\t' || c = '\n' || c = '\r' || c = '\x0b' || c = '\x0c'

/-- Model of JS `String.prototype.trim` (ASCII whitespace portion). -/
def jsTrim (s : String) : String :=
  String.mk (((s.data.dropWhile jsWs).reverse.dropWhile jsWs).reverse)

/-- Model of JS `String.prototype.trimStart`-like stripping done by the
`\s*` in the header regex `/^([^:]+):\s*(.*)$/`. -/
def dropLeadWs (cs : List Char) : List Char := cs.dropWhile jsWs

/-- ASCII lowercasing; models JS `toLowerCase` on the ASCII inputs the code
feeds it (header names and sanitized folder names). -/
def asciiLowerChar (c : Char) : Char :=
  if 'A' ≤ c ∧ c ≤ 'Z' then Char.ofNat (c.toNat + 32) else c

def asciiLower (s : String) : String := String.mk (s.data.map asciiLowerChar)

/-- JS `v || d` for an optional string (both `undefined`/`null` and `""` are
falsy). -/
def jsOrStr (v : Option String) (d : String) : String :=
  match v with
  | some s => if s = "" then d else s
  | none => d

/-- JS `s || d` where the left operand is a plain string. -/
def jsOrS (s d : String) : String := if s = "" then d else s

/-- JS truthiness of an optional string. -/
def optTruthy (o : Option String) : Bool :=
  match o with
  | some s => s ≠ ""
  | none => false

/-- Decidable prefix test on character lists (models JS `startsWith` and the
anchored regex matches `/^From /`). -/
def beginsWith : List Char → List Char → Bool
  | [], _ => true
  | _ :: _, [] => false
  | p :: ps, c :: cs => p = c && beginsWith ps cs

/-- Extend the first chunk of a split result by one character. -/
def consHd (c : Char) : List (List Char) → List (List Char)
  | [] => [[c]]
  | h :: t => (c :: h) :: t

/-- Model of JS `string.split(sep)` (single-character separator) on the
underlying character list. -/
def splitChData (sep : Char) : List Char → List (List Char)
  | [] => [[]]
  | c :: cs =>
    if c = sep then [] :: splitChData sep cs
    else consHd c (splitChData sep cs)

/-- Model of JS `array.join(sep)` (single-character separator). -/
def joinChData (sep : Char) : List (List Char) → List Char
  | [] => []
  | [l] => l
  | l :: ls => l ++ sep :: joinChData sep ls

/-- Model of JS `string.split('\n')` on the underlying character list. -/
def splitNlData : List Char → List (List Char) := splitChData '\n'

def joinNlData (ls : List (List Char)) : List Char := joinChData '\n' ls

/-- JS `s.split('\n')`. -/
def splitNl (s : String) : List String := (splitNlData s.data).map String.mk

/-- JS `array.join('\n')`. -/
def joinNl (ls : List String) : String := String.mk (joinNlData (ls.map String.data))

/-- JS `array.join(',')` (also the rendering of a `string[]` header value by
a template literal). -/
def commaJoin : List String → String
  | [] => ""
  | [s] => s
  | s :: rest => s ++ "," ++ commaJoin rest

/-- JS `array.join(', ')`. -/
def commaSpJoin : List String → String
  | [] => ""
  | [s] => s
  | s :: rest => s ++ ", " ++ commaSpJoin rest

/-- Last-assignment-wins lookup in a JS `Record` built by repeated
`rec[key] = value` assignments (modelled as the assignment list in order). -/
def recGet (l : List (String × String)) (k : String) : Option String :=
  l.foldl (fun acc kv => if kv.1 = k then some kv.2 else acc) none

/-- Truthy lookup in a JS `Record<string, boolean>`. -/
def recGetB (l : List (String × Bool)) (k : String) : Bool :=
  l.foldl (fun acc kv => if kv.1 = k then kv.2 else acc) false

/-- Standard base64 alphabet (RFC 4648), used by `Buffer.toString('base64')`. -/
def b64Alphabet : List Char :=
  "ABCDEFGHIJKLMNOPQRSTUVWXYZabcdefghijklmnopqrstuvwxyz0123456789+/".data

def b64Char (n : Nat) : Char := b64Alphabet.getD n 'A'

/-- Model of Node `Buffer.toString('base64')` on a byte list. -/
def b64EncodeBytes : List Nat → List Char
  | [] => []
  | [b1] => [b64Char (b1 / 4), b64Char (b1 % 4 * 16), '=', '=']
  | [b1, b2] => [b64Char (b1 / 4), b64Char (b1 % 4 * 16 + b2 / 16), b64Char (b2 % 16 * 4), '=']
  | b1 :: b2 :: b3 :: rest =>
    b64Char (b1 / 4) :: b64Char (b1 % 4 * 16 + b2 / 16) ::
      b64Char (b2 % 16 * 4 + b3 / 64) :: b64Char (b3 % 64) :: b64EncodeBytes rest

def bufToBase64 (bs : List Nat) : String := String.mk (b64EncodeBytes bs)

/-- A JS `Date` as seen by this code base: only its serializations are ever
observed, so the model carries them as data. -/
structure JsDate where
  toStringRepr : String
  toUTCStringRepr : String
  toISOStringRepr : String
deriving DecidableEq, Repr

/-- Token for `new Date(s)` built from a parsed string (no claim inspects a
re-parsed date, so the model just records the source text). -/
def JsDate.parsedFrom (s : String) : JsDate := ⟨s, s, s⟩

/-- Token for `new Date()` / `Date.now()` fallbacks. -/
def JsDate.nowToken : JsDate := ⟨"", "", ""⟩

/-- Value of a header in the canonical model (`Record<string, string | string[]>`
in `src/types.ts`). -/
inductive HVal where
  | str (s : String)
  | arr (ss : List String)
deriving DecidableEq, Repr

/-- Rendering of a header value by a template literal: arrays render
comma-joined. -/
def HVal.render : HVal → String
  | .str s => s
  | .arr ss => commaJoin ss

/-- `EmailAddress` from `src/types.ts`. -/
structure EmailAddress where
  name : Option String
  address : String
deriving DecidableEq, Repr

/-- `Attachment` from `src/types.ts` (`content?: Buffer` modelled as an
optional byte list). -/
structure Attachment where
  filename : String
  contentType : String
  size : Nat
  content : Option (List Nat)
  contentId : Option String
deriving DecidableEq, Repr

/-- `EmailMessage` from `src/types.ts`, the canonical message model. -/
structure EmailMessage where
  id : String
  uid : Nat
  subject : String
  «from» : EmailAddress
  «to» : List EmailAddress
  cc : Option (List EmailAddress)
  bcc : Option (List EmailAddress)
  date : JsDate
  headers : List (String × HVal)
  text : Option String
  html : Option String
  attachments : List Attachment
  raw : Option String
  labels : Option (List String)
  folder : Option String
  flags : Option (List String)
deriving DecidableEq, Repr

/-- `Folder` from `src/types.ts` (`children?` makes it a nested inductive). -/
inductive Folder where
  | mk (name path delimiter : String) (flags : Option (List String))
      (messageCount unreadCount : Option Nat) (children : Option (List Folder))

end Backupmail

namespace Backupmail.MboxExporter

/-- `MboxExporter.sanitizeFolderName` (src/exporters/mbox.ts):
`.replace(/[^a-z0-9_\-]/gi, '_').replace(/_+/g, '_').toLowerCase()`. -/
def allowedChar (c : Char) : Bool :=
  ('a' ≤ c && c ≤ 'z') || ('A' ≤ c && c ≤ 'Z') || ('0' ≤ c && c ≤ '9') || c = '_' || c = '-'

def replChar (c : Char) : Char := if allowedChar c then c else '_'

/-- Model of `.replace(/_+/g, '_')`: collapse each maximal run of
underscores to a single one. -/
def collapseUnd : List Char → List Char
  | [] => []
  | [c] => [c]
  | c :: d :: rest =>
    if c = '_' && d = '_' then collapseUnd (d :: rest)
    else c :: collapseUnd (d :: rest)

def sanitizeFolderName (folder : String) : String :=
  asciiLower (String.mk (collapseUnd (folder.data.map replChar)))

/-- `MboxExporter.formatAddress`. -/
def formatAddress (addr : EmailAddress) : String :=
  match addr.name with
  | some n => if n = "" then addr.address else "\"" ++ n ++ "\" <" ++ addr.address ++ ">"
  | none => addr.address

/-- `MboxExporter.createFromLine`: `From ${sender} ${date}` with
`message.from.address || 'unknown'`. -/
def createFromLine (m : EmailMessage) : String :=
  "From " ++ jsOrS m.«from».address "unknown" ++ " " ++ m.date.toStringRepr

def knownHeaderKeys : List String :=
  ["from", "to", "cc", "subject", "date", "message-id", "content-type"]

/-- `MboxExporter.buildHeaders`.  The source calls `generateBoundary()`
(timestamp + `Math.random()`); the model receives the generated boundary as
the `boundary` parameter. -/
def buildHeaders (boundary : String) (m : EmailMessage) : List String :=
  ["From: " ++ formatAddress m.«from»,
   "To: " ++ commaSpJoin (m.«to».map formatAddress)] ++
  (match m.cc with
   | some cc => if cc.length > 0 then ["Cc: " ++ commaSpJoin (cc.map formatAddress)] else []
   | none => []) ++
  ["Subject: " ++ m.subject,
   "Date: " ++ m.date.toUTCStringRepr,
   "Message-ID: " ++ m.id] ++
  [if m.attachments.length > 0 then
     "Content-Type: multipart/mixed; boundary=\"" ++ boundary ++ "\""
   else if optTruthy m.html then "Content-Type: text/html; charset=utf-8"
   else "Content-Type: text/plain; charset=utf-8"] ++
  ((m.headers.filter (fun kv => !(knownHeaderKeys.contains (asciiLower kv.1)))).map
    (fun kv => kv.1 ++ ": " ++ kv.2.render))

/-- `MboxExporter.buildMultipartBody`. -/
def buildMultipartBody (boundary : String) (m : EmailMessage) : List String :=
  ["--" ++ boundary] ++
  (if optTruthy m.html then
     ["Content-Type: text/html; charset=utf-8", "", m.html.getD ""]
   else
     ["Content-Type: text/plain; charset=utf-8", "", m.text.getD ""]) ++
  (m.attachments.flatMap (fun att =>
    ["", "--" ++ boundary,
     "Content-Type: " ++ att.contentType,
     "Content-Transfer-Encoding: base64",
     "Content-Disposition: attachment; filename=\"" ++ att.filename ++ "\"",
     "",
     match att.content with
     | some bs => bufToBase64 bs
     | none => "[Attachment content not available]"])) ++
  ["", "--" ++ boundary ++ "--"]

/-- `MboxExporter.reconstructRawMessage`: headers, blank line, then either a
multipart body (attachments present) or `message.html || message.text || ''`. -/
def reconstructRawMessage (boundary : String) (m : EmailMessage) : String :=
  joinNl (buildHeaders boundary m ++ [""] ++
    (if m.attachments.length > 0 then buildMultipartBody boundary m
     else [jsOrStr m.html (jsOrStr m.text "")]))

/-- `message.raw || this.reconstructRawMessage(message)`. -/
def messageContent (boundary : String) (m : EmailMessage) : String :=
  match m.raw with
  | some r => if r = "" then reconstructRawMessage boundary m else r
  | none => reconstructRawMessage boundary m

/-- One line of `.replace(/^From /gm, '>From ')`: only a line literally
beginning `"From "` is touched, and it receives exactly one `">"`. -/
def escapeLine (l : String) : String :=
  if beginsWith "From ".data l.data then ">" ++ l else l

/-- `.replace(/^From /gm, '>From ')` over the whole content. -/
def escapeFromLines (s : String) : String :=
  joinNl ((splitNl s).map escapeLine)

/-- `MboxExporter.messageToMboxEntry`. -/
def messageToMboxEntry (boundary : String) (m : EmailMessage) : String :=
  createFromLine m ++ "\n" ++ escapeFromLines (messageContent boundary m) ++ "\n\n"

/-- `MboxExporter.messagesToMbox`. -/
def messagesToMbox (boundary : String) (ms : List EmailMessage) : String :=
  ms.foldl (fun acc m => acc ++ messageToMboxEntry boundary m) ""

/-- The lines one entry contributes to the mbox file, before the final
file-terminating empty line (derived view used by the theorems below). -/
def coreLines (boundary : String) (m : EmailMessage) : List String :=
  splitNl (createFromLine m) ++
    (splitNl (messageContent boundary m)).map escapeLine ++ [""]

end Backupmail.MboxExporter

namespace Backupmail.EmlExporter

/-- `EmlExporter.sanitizeFolderName` (src/exporters/eml.ts) — textually the
same pipeline as the MBOX one, re-embedded separately because the source
duplicates it per class. -/
def sanitizeFolderName (folder : String) : String :=
  asciiLower (String.mk (MboxExporter.collapseUnd (folder.data.map MboxExporter.replChar)))

end Backupmail.EmlExporter

namespace Backupmail.JsonExporter

/-- `JsonExporter.sanitizeFolderName` (src/exporters/eml.ts, JsonExporter
class) — again a per-class duplicate in the source. -/
def sanitizeFolderName (folder : String) : String :=
  asciiLower (String.mk (MboxExporter.collapseUnd (folder.data.map MboxExporter.replChar)))

/-- Shape of the per-attachment object produced by
`JsonExporter.messagesToJson`: only metadata plus a `hasContent` marker. -/
structure JsonAttachmentOut where
  filename : String
  contentType : String
  size : Nat
  hasContent : Bool
deriving DecidableEq, Repr

/-- Shape of the per-message object produced by `JsonExporter.messagesToJson`
(JSON.stringify serializes exactly these fields; `Option.none` stands for an
omitted/`undefined` field). -/
structure JsonMessageOut where
  id : String
  uid : Nat
  subject : String
  «from» : EmailAddress
  «to» : List EmailAddress
  cc : Option (List EmailAddress)
  bcc : Option (List EmailAddress)
  date : String
  headers : List (String × HVal)
  text : Option String
  html : Option String
  attachments : List JsonAttachmentOut
  labels : Option (List String)
  folder : Option String
  flags : Option (List String)
deriving DecidableEq, Repr

/-- The attachment mapping inside `messagesToJson`: `hasContent: !!att.content`
(a present `Buffer` is truthy even when empty). -/
def attachmentToJson (att : Attachment) : JsonAttachmentOut :=
  { filename := att.filename
    contentType := att.contentType
    size := att.size
    hasContent := att.content.isSome }

/-- `JsonExporter.messagesToJson`. -/
def messagesToJson (ms : List EmailMessage) : List JsonMessageOut :=
  ms.map (fun msg =>
    { id := msg.id
      uid := msg.uid
      subject := msg.subject
      «from» := msg.«from»
      «to» := msg.«to»
      cc := msg.cc
      bcc := msg.bcc
      date := msg.date.toISOStringRepr
      headers := msg.headers
      text := msg.text
      html := msg.html
      attachments := msg.attachments.map attachmentToJson
      labels := msg.labels
      folder := msg.folder
      flags := msg.flags })

end Backupmail.JsonExporter

namespace Backupmail.MboxImporter

/-- One pass of `content.split(/^From /m)` at line level: a line beginning
`"From "` starts a new segment; the preceding newline stays with the closed
segment (hence the extra `""` line), and the matched `"From "` is consumed
from the opening line. -/
def segsAux (cur : List String) : List String → List String
  | [] => [joinNl cur]
  | l :: ls =>
    if beginsWith "From ".data l.data then
      joinNl (cur ++ [""]) :: segsAux [String.mk (l.data.drop 5)] ls
    else segsAux (cur ++ [l]) ls

/-- `content.split(/^From /m)` in `MboxImporter.parseMbox`. -/
def mboxSplit (content : String) : List String := segsAux [] (splitNl content)

/-- `entry.substring(entry.indexOf('\n') + 1)`: drop the envelope line (when
the entry has no newline, `indexOf` is `-1` and the whole entry is kept). -/
def dropEnvelope (e : String) : String :=
  match splitNl e with
  | [] => e
  | [_] => e
  | _ :: rest => joinNl rest

/-- Split a line at its first colon (`/^([^:]+):/` part of the header regex). -/
def splitAtColon : List Char → Option (List Char × List Char)
  | [] => none
  | c :: cs =>
    if c = ':' then some ([], cs)
    else
      match splitAtColon cs with
      | some kv => some (c :: kv.1, kv.2)
      | none => none

/-- `line.match(/^([^:]+):\s*(.*)$/)` together with the
`if (match && match[1] && match[2])` truthiness guard of the source: the key
is the (necessarily nonempty) text before the first colon, the value is the
rest with leading whitespace stripped, and the pair is kept only when the
value is nonempty. -/
def matchHeader (line : String) : Option (String × String) :=
  match splitAtColon line.data with
  | some kv =>
    if kv.1 = [] then none
    else
      let v := dropLeadWs kv.2
      if v = [] then none else some (String.mk kv.1, String.mk v)
  | none => none

/-- The header-scanning loop of `MboxImporter.parseMessage`.  Returns the
header assignments in order together with `bodyStartIndex`.  Note that the
source checks `if (!line) continue` *before* the blank-line test, so a truly
empty line never triggers the body break — only a nonempty whitespace-only
line does; when no break fires, `bodyStartIndex` keeps its initial value 0. -/
def scanHeaders : List String → Nat → List (String × String) → List (String × String) × Nat
  | [], _, acc => (acc, 0)
  | l :: ls, i, acc =>
    if l = "" then scanHeaders ls (i + 1) acc
    else if jsTrim l = "" then (acc, i + 1)
    else
      match matchHeader l with
      | some kv => scanHeaders ls (i + 1) (acc ++ [kv])
      | none => scanHeaders ls (i + 1) acc

/-- The `"?` element of `/"?([^"]*)"?\s*<(.+)>/`: greedily consume a quote
first, then backtrack to not consuming it. -/
def quoteOpts : List Char → List (List Char)
  | '"' :: rest => [rest, '"' :: rest]
  | cs => [cs]

/-- The `\s*` element: all greedy-first amounts of leading whitespace. -/
def wsOpts (cs : List Char) : List (List Char) :=
  ((List.range ((cs.takeWhile jsWs).length + 1)).reverse).map (fun j => cs.drop j)

/-- `<(.+)>` with greedy `(.+)`: the capture runs to the *last* `'>'`, which
must leave at least one captured character. -/
def capAngle (cs : List Char) : Option (List Char) :=
  match cs.reverse.findIdx? (fun d => d = '>') with
  | some k =>
    let j := cs.length - 1 - k
    if 1 ≤ j then some (cs.take j) else none
  | none => none

/-- Matching of `"?\s*<(.+)>` after the name capture. -/
def tryAfterName (cs : List Char) : Option (List Char) :=
  (quoteOpts cs).findSome? (fun r1 =>
    (wsOpts r1).findSome? (fun r2 =>
      match r2 with
      | '<' :: r3 => capAngle r3
      | _ => none))

/-- Attempt of the whole address regex at one start position (`([^"]*)` is
greedy, so longer name captures are tried first). -/
def tryAt (cs : List Char) : Option (List Char × List Char) :=
  (quoteOpts cs).findSome? (fun afterQ =>
    let run := afterQ.takeWhile (fun d => d ≠ '"')
    ((List.range (run.length + 1)).reverse).findSome? (fun k =>
      (tryAfterName (afterQ.drop k)).map (fun cap => (afterQ.take k, cap))))

/-- Leftmost match of `/"?([^"]*)"?\s*<(.+)>/` over the string. -/
def findAddrMatch : List Char → Option (List Char × List Char)
  | [] => none
  | c :: cs =>
    match tryAt (c :: cs) with
    | some r => some r
    | none => findAddrMatch cs

/-- `MboxImporter.parseAddress`. -/
def parseAddress (addr : String) : EmailAddress :=
  match findAddrMatch addr.data with
  | some nc =>
    let nmT := jsTrim (String.mk nc.1)
    let capT := jsTrim (String.mk nc.2)
    { name := if nmT = "" then none else some nmT
      address := if capT = "" then jsTrim addr else capT }
  | none => { name := none, address := jsTrim addr }

/-- `MboxImporter.parseAddresses`. -/
def parseAddresses (addrs : String) : List EmailAddress :=
  if addrs = "" then []
  else (splitChData ',' addrs.data).map (fun a => parseAddress (jsTrim (String.mk a)))

/-- `MboxImporter.parseMessage`.  The imported `headers` record is modelled
by the assignment list (last assignment wins on lookup). -/
def parseMessage (content : String) (uid : Nat) : EmailMessage :=
  let lines := splitNl content
  let scan := scanHeaders lines 0 []
  let headers := scan.1
  let body := joinNl (lines.drop scan.2)
  { id := jsOrStr (recGet headers "Message-ID") (toString uid)
    uid := uid
    subject := jsOrStr (recGet headers "Subject") "(No Subject)"
    «from» := parseAddress (jsOrStr (recGet headers "From") "unknown")
    «to» := parseAddresses (jsOrStr (recGet headers "To") "")
    cc := some (parseAddresses (jsOrStr (recGet headers "Cc") ""))
    bcc := none
    date := match recGet headers "Date" with
            | some d => if d = "" then JsDate.nowToken else JsDate.parsedFrom d
            | none => JsDate.nowToken
    headers := headers.map (fun kv => (kv.1, HVal.str kv.2))
    text := some body
    html := none
    attachments := []
    raw := some content
    labels := none
    folder := none
    flags := none }

/-- `MboxImporter.parseMbox`: split on envelope lines, drop blank segments,
parse each remaining entry (the model's `parseMessage` is total, matching
the source where no reachable `throw` exists in the entry loop). -/
def parseMbox (content : String) : List EmailMessage :=
  let entries := (mboxSplit content).filter (fun e => jsTrim e ≠ "")
  entries.enum.map (fun p => parseMessage (dropEnvelope p.2) (p.1 + 1))

end Backupmail.MboxImporter

namespace Backupmail.Providers

/-- A thrown JS `Error`, identified by its message. -/
structure JsError where
  message : String
deriving DecidableEq, Repr

/-- The error thrown by `BaseEmailProvider.ensureConnected`
(src/providers/base.ts); the spec's `NotConnectedError`. -/
def notConnectedError : JsError :=
  ⟨"Provider not connected. Call connect() first."⟩

/-- `BaseEmailProvider.ensureConnected`. -/
def ensureConnected (connected : Bool) : Except JsError Unit :=
  if connected then .ok () else .error notConnectedError

/-- Result of the underlying network attempt made by a `connect()`. -/
inductive ConnectOutcome where
  | success
  | failure (msg : String)
deriving DecidableEq, Repr

/-- Mutable state of an `ImapProvider` instance: presence of the `imap`
handle and the inherited `connected` flag. -/
structure ImapState where
  imapPresent : Bool
  connected : Bool
deriving DecidableEq, Repr

/-- Fresh instance: `imap = null`, `connected = false` (base class default). -/
def ImapState.init : ImapState := ⟨false, false⟩

/-- `ImapProvider.connect`: the handle object is constructed first; the
`ready` event sets `connected`, the `error` event clears it and rejects. -/
def imapConnect (_st : ImapState) (o : ConnectOutcome) :
    Except JsError Unit × ImapState :=
  match o with
  | .success => (.ok (), ⟨true, true⟩)
  | .failure m => (.error ⟨m⟩, ⟨true, false⟩)

/-- `ImapProvider.disconnect`: a no-op when no handle exists, otherwise ends
the connection, drops the handle and clears `connected`. -/
def imapDisconnect (st : ImapState) : ImapState :=
  if st.imapPresent then ⟨false, false⟩ else st

/-- `ImapProvider.testConnection`: `try { connect; disconnect; true } catch
{ false }` — never propagates. -/
def imapTestConnection (st : ImapState) (o : ConnectOutcome) : Bool × ImapState :=
  match imapConnect st o with
  | (.ok _, st1) => (true, imapDisconnect st1)
  | (.error _, st1) => (false, st1)

/-- States reachable by one `ImapProvider` instance through its public
connection lifecycle. -/
inductive ImapReach : ImapState → Prop where
  | init : ImapReach ImapState.init
  | connectStep {st : ImapState} (o : ConnectOutcome) (h : ImapReach st) :
      ImapReach (imapConnect st o).2
  | disconnectStep {st : ImapState} (h : ImapReach st) :
      ImapReach (imapDisconnect st)
  | testStep {st : ImapState} (o : ConnectOutcome) (h : ImapReach st) :
      ImapReach (imapTestConnection st o).2

/-- `ImapProvider.getFolders`: the guard runs first; the rest of the method
(network traffic and box parsing) is abstracted by its result `net`. -/
def imapGetFolders (st : ImapState) (net : Except JsError (List Folder)) :
    Except JsError (List Folder) := do
  let _ ← ensureConnected st.connected
  net

/-- Effect of `ImapProvider.getMessages` as observed at the IMAP wire:
an error, an immediate empty resolution (no fetch issued), or a `seq.fetch`
over an inclusive sequence-number range. -/
inductive ImapFetchPlan where
  | err (e : JsError)
  | noFetch
  | fetchRange (startSeq endSeq : Nat)
deriving DecidableEq, Repr

/-- `ImapProvider.getMessages` up to the point the fetch is issued:
`openBox` yields the folder's `messages.total` (or an error); the range is
`` `${limit > 0 && limit < total ? total - limit + 1 : 1}:${total}` ``. -/
def imapGetMessagesPlan (st : ImapState) (openResult : Except JsError Nat)
    (limit : Nat) : ImapFetchPlan :=
  match ensureConnected st.connected with
  | .error e => .err e
  | .ok _ =>
    match openResult with
    | .error e => .err e
    | .ok total =>
      if total = 0 then .noFetch
      else
        .fetchRange (if limit > 0 && limit < total then total - limit + 1 else 1) total

/-- `ImapProvider.getMessage` (guard + abstracted fetch). -/
def imapGetMessage (st : ImapState) (net : Except JsError EmailMessage) :
    Except JsError EmailMessage := do
  let _ ← ensureConnected st.connected
  net

/-- `ImapProvider.uploadMessages` (guard + abstracted per-message loop). -/
def imapUploadMessages (st : ImapState) (net : Except JsError Unit) :
    Except JsError Unit := do
  let _ ← ensureConnected st.connected
  net

/-- `ImapProvider.createFolder` (guard + abstracted `addBox`). -/
def imapCreateFolder (st : ImapState) (net : Except JsError Unit) :
    Except JsError Unit := do
  let _ ← ensureConnected st.connected
  net

/-- `ImapProvider.deleteFolder` (guard + abstracted `delBox`). -/
def imapDeleteFolder (st : ImapState) (net : Except JsError Unit) :
    Except JsError Unit := do
  let _ ← ensureConnected st.connected
  net

/-- Mutable state of a `GmailProvider` instance. -/
structure GmailState where
  gmailPresent : Bool
  connected : Bool
deriving DecidableEq, Repr

def GmailState.init : GmailState := ⟨false, false⟩

/-- `GmailProvider.connect`: the API client object is created, then the
profile fetch decides success; on failure `connected` is cleared and a
wrapped error is thrown (the client object remains assigned). -/
def gmailConnect (_st : GmailState) (o : ConnectOutcome) :
    Except JsError Unit × GmailState :=
  match o with
  | .success => (.ok (), ⟨true, true⟩)
  | .failure m => (.error ⟨"Failed to connect to Gmail: " ++ m⟩, ⟨true, false⟩)

/-- `GmailProvider.disconnect`: unconditionally drops the client and clears
`connected`. -/
def gmailDisconnect (_st : GmailState) : GmailState := ⟨false, false⟩

/-- `GmailProvider.testConnection`: `try { connect; true } catch { false }` —
no disconnect on the success path, the session stays bound. -/
def gmailTestConnection (st : GmailState) (o : ConnectOutcome) : Bool × GmailState :=
  match gmailConnect st o with
  | (.ok _, st1) => (true, st1)
  | (.error _, st1) => (false, st1)

def gmailGetFolders (st : GmailState) (net : Except JsError (List Folder)) :
    Except JsError (List Folder) := do
  let _ ← ensureConnected st.connected
  net

def gmailGetMessages (st : GmailState) (net : Except JsError (List EmailMessage)) :
    Except JsError (List EmailMessage) := do
  let _ ← ensureConnected st.connected
  net

def gmailGetMessage (st : GmailState) (net : Except JsError EmailMessage) :
    Except JsError EmailMessage := do
  let _ ← ensureConnected st.connected
  net

def gmailUploadMessages (st : GmailState) (net : Except JsError Unit) :
    Except JsError Unit := do
  let _ ← ensureConnected st.connected
  net

def gmailCreateFolder (st : GmailState) (net : Except JsError Unit) :
    Except JsError Unit := do
  let _ ← ensureConnected st.connected
  net

def gmailDeleteFolder (st : GmailState) (net : Except JsError Unit) :
    Except JsError Unit := do
  let _ ← ensureConnected st.connected
  net

/-- Subset of the JMAP `Mailbox` object read by this client. -/
structure JmapMailbox where
  id : String
  name : String
  parentId : Option String
  role : Option String
  totalEmails : Nat
  unreadEmails : Nat
deriving DecidableEq, Repr

/-- Mutable state of a `JmapProvider` instance. -/
structure JmapState where
  sessionPresent : Bool
  primaryAccountId : Option String
  mailboxCache : List (String × JmapMailbox)
  connected : Bool
deriving DecidableEq, Repr

def JmapState.init : JmapState := ⟨false, none, [], false⟩

/-- How a JMAP session fetch can end: HTTP/network failure (before the
session is assigned), a session without a mail account (the session field is
already assigned when the check throws), or success. -/
inductive JmapConnectOutcome where
  | httpError (msg : String)
  | noMailAccount
  | success (accountId : String)
deriving DecidableEq, Repr

/-- `JmapProvider.connect`.  All failures are re-thrown wrapped in
`Failed to connect to JMAP: ...` after clearing `connected`. -/
def jmapConnect (st : JmapState) (o : JmapConnectOutcome) :
    Except JsError Unit × JmapState :=
  match o with
  | .httpError m =>
    (.error ⟨"Failed to connect to JMAP: " ++ m⟩, { st with connected := false })
  | .noMailAccount =>
    (.error ⟨"Failed to connect to JMAP: Error: No mail account found in JMAP session"⟩,
      { st with sessionPresent := true, connected := false })
  | .success accountId =>
    (.ok (),
      { st with sessionPresent := true, primaryAccountId := some accountId, connected := true })

/-- `JmapProvider.disconnect`: clears session, account id, mailbox cache and
the `connected` flag, unconditionally. -/
def jmapDisconnect (_st : JmapState) : JmapState := ⟨false, none, [], false⟩

/-- `JmapProvider.testConnection`: `try { connect; disconnect; true } catch
{ false }`. -/
def jmapTestConnection (st : JmapState) (o : JmapConnectOutcome) : Bool × JmapState :=
  match jmapConnect st o with
  | (.ok _, st1) => (true, jmapDisconnect st1)
  | (.error _, st1) => (false, st1)

def jmapGetFolders (st : JmapState) (net : Except JsError (List Folder)) :
    Except JsError (List Folder) := do
  let _ ← ensureConnected st.connected
  net

def jmapGetMessages (st : JmapState) (net : Except JsError (List EmailMessage)) :
    Except JsError (List EmailMessage) := do
  let _ ← ensureConnected st.connected
  net

def jmapGetMessage (st : JmapState) (net : Except JsError EmailMessage) :
    Except JsError EmailMessage := do
  let _ ← ensureConnected st.connected
  net

def jmapUploadMessages (st : JmapState) (net : Except JsError Unit) :
    Except JsError Unit := do
  let _ ← ensureConnected st.connected
  net

def jmapCreateFolder (st : JmapState) (net : Except JsError Unit) :
    Except JsError Unit := do
  let _ ← ensureConnected st.connected
  net

def jmapDeleteFolder (st : JmapState) (net : Except JsError Unit) :
    Except JsError Unit := do
  let _ ← ensureConnected st.connected
  net

end Backupmail.Providers

namespace Backupmail.Providers

/-- Subset of a `mailparser` `ParsedMail` result read by
`ImapProvider.parseMessage` (`from?.value` collapsed into one optional list;
`html: string | false` collapsed into an optional string; `headers` carried
as the entry list of mailparser's header map). -/
structure ParsedMail where
  messageId : Option String
  subject : Option String
  «from» : Option (List EmailAddress)
  «to» : Option (List EmailAddress)
  cc : Option (List EmailAddress)
  bcc : Option (List EmailAddress)
  date : Option JsDate
  headers : List (String × HVal)
  text : Option String
  html : Option String
  attachments : Option (List Attachment)
  raw : Option String
deriving DecidableEq, Repr

/-- `ImapProvider.parseMessage` (src/providers/imap.ts). -/
def imapParseMessage (parsed : ParsedMail) (uid : Nat) (folder : String) :
    EmailMessage :=
  { id := jsOrStr parsed.messageId (toString uid)
    uid := uid
    subject := jsOrStr parsed.subject "(No Subject)"
    «from» := (parsed.«from».bind List.head?).getD ⟨none, "unknown"⟩
    «to» := parsed.«to».getD []
    cc := parsed.cc
    bcc := parsed.bcc
    date := parsed.date.getD JsDate.nowToken
    headers := parsed.headers
    text := parsed.text
    html := parsed.html
    attachments := (parsed.attachments.getD []).map (fun att =>
      { filename := att.filename
        contentType := att.contentType
        size := att.size
        content := att.content
        contentId := att.contentId })
    folder := some folder
    flags := some []
    raw := parsed.raw
    labels := none }

/-- One Gmail API header object (`Schema$MessagePartHeader`). -/
structure GmailHeader where
  name : Option String
  value : Option String
deriving DecidableEq, Repr

/-- `Schema$MessagePartBody` subset read by the provider. -/
structure GmailPartBody where
  attachmentId : Option String
  size : Option Nat
  data : Option String
deriving DecidableEq, Repr

/-- `Schema$MessagePart` (recursive through `parts`). -/
inductive GmailMessagePart where
  | mk (mimeType : Option String) (filename : Option String)
      (headers : Option (List GmailHeader)) (body : Option GmailPartBody)
      (parts : Option (List GmailMessagePart))

def GmailMessagePart.mimeType : GmailMessagePart → Option String
  | .mk m _ _ _ _ => m

def GmailMessagePart.filename : GmailMessagePart → Option String
  | .mk _ f _ _ _ => f

def GmailMessagePart.headers : GmailMessagePart → Option (List GmailHeader)
  | .mk _ _ h _ _ => h

def GmailMessagePart.body : GmailMessagePart → Option GmailPartBody
  | .mk _ _ _ b _ => b

def GmailMessagePart.parts : GmailMessagePart → Option (List GmailMessagePart)
  | .mk _ _ _ _ p => p

/-- `Schema$Message` subset read by `parseGmailMessage`. -/
structure GmailSchemaMessage where
  id : Option String
  labelIds : Option (List String)
  internalDate : Option String
  payload : Option GmailMessagePart
  raw : Option String

/-- The `getHeader` closure:
`headers.find(h => h.name?.toLowerCase() === name.toLowerCase())?.value || ''`. -/
def gmailGetHeader (headers : List GmailHeader) (name : String) : String :=
  jsOrStr
    ((headers.find? (fun h =>
      match h.name with
      | some n => asciiLower n == asciiLower name
      | none => false)).bind GmailHeader.value)
    ""

/-- Decimal value of a digit list. -/
def digitsVal (ds : List Char) : Nat :=
  ds.foldl (fun a c => a * 10 + (c.toNat - 48)) 0

/-- JS `parseInt` on the inputs this code feeds it (a decimal-digit-headed
string); a string with no leading digits gives `NaN`, which downstream
arithmetic never distinguishes from the model's 0 in any claim. -/
def jsParseIntOrZero (s : String) : Nat :=
  digitsVal (s.data.takeWhile Char.isDigit)

/-- `GmailProvider.parseAddresses` per-item regex `/(.*?)\s*<(.+?)>/`
(both groups lazy): the first `'<'` followed — at distance ≥ 2 — by a
`'>'` wins; the capture runs to the first such `'>'`. -/
def gmailAngleAux : List Char → List Char → Option (List Char × List Char)
  | _, [] => none
  | before, c :: rest =>
    if c = '<' then
      match rest with
      | [] => none
      | d :: rest' =>
        if rest'.contains '>' then
          some (before, d :: rest'.takeWhile (fun x => x ≠ '>'))
        else gmailAngleAux (before ++ [c]) rest
    else gmailAngleAux (before ++ [c]) rest

/-- One address of `GmailProvider.parseAddresses` (note: on a match the
`name` field is kept even when it trims to the empty string, mirroring
`name: match[1]?.trim()` without a `|| undefined`). -/
def gmailParseAddress (addr : String) : EmailAddress :=
  match gmailAngleAux [] addr.data with
  | some p =>
    { name := some (jsTrim (String.mk p.1))
      address := jsOrS (jsTrim (String.mk p.2)) (jsTrim addr) }
  | none => { name := none, address := jsTrim addr }

/-- `GmailProvider.parseAddresses`. -/
def gmailParseAddresses (s : String) : List EmailAddress :=
  if s = "" then []
  else (splitChData ',' s.data).map (fun a => gmailParseAddress (String.mk a))

mutual

/-- `GmailProvider.extractTextContent`; `b64` abstracts
`Buffer.from(data, 'base64').toString('utf8')`. -/
def extractTextContent (b64 : String → String) : GmailMessagePart → Option String
  | .mk mt _fn _hs body parts =>
    if mt == some "text/plain" && optTruthy (body.bind GmailPartBody.data) then
      some (b64 ((body.bind GmailPartBody.data).getD ""))
    else
      match parts with
      | some ps => extractTextList b64 ps
      | none => none

/-- The `for (const part of payload.parts)` loop with its
`if (text) return text` truthiness check. -/
def extractTextList (b64 : String → String) : List GmailMessagePart → Option String
  | [] => none
  | p :: ps =>
    match extractTextContent b64 p with
    | some t => if t = "" then extractTextList b64 ps else some t
    | none => extractTextList b64 ps

end

mutual

/-- `GmailProvider.extractHtmlContent`. -/
def extractHtmlContent (b64 : String → String) : GmailMessagePart → Option String
  | .mk mt _fn _hs body parts =>
    if mt == some "text/html" && optTruthy (body.bind GmailPartBody.data) then
      some (b64 ((body.bind GmailPartBody.data).getD ""))
    else
      match parts with
      | some ps => extractHtmlList b64 ps
      | none => none

def extractHtmlList (b64 : String → String) : List GmailMessagePart → Option String
  | [] => none
  | p :: ps =>
    match extractHtmlContent b64 p with
    | some t => if t = "" then extractHtmlList b64 ps else some t
    | none => extractHtmlList b64 ps

end

mutual

/-- `GmailProvider.extractAttachments` (`processpart` recursion): a part
carrying a truthy filename and an attachment blob id contributes one
metadata-only attachment. -/
def gmailCollectAtts : GmailMessagePart → List Attachment
  | .mk mt fn _hs body parts =>
    (if optTruthy fn && optTruthy (body.bind GmailPartBody.attachmentId) then
      [{ filename := fn.getD ""
         contentType := jsOrStr mt "application/octet-stream"
         size := (body.bind GmailPartBody.size).getD 0
         content := none
         contentId := body.bind GmailPartBody.attachmentId }]
     else []) ++
    (match parts with
     | some ps => gmailCollectAttsList ps
     | none => [])

def gmailCollectAttsList : List GmailMessagePart → List Attachment
  | [] => []
  | p :: ps => gmailCollectAtts p ++ gmailCollectAttsList ps

end

/-- `headers.reduce(...)`: keep pairs whose name and value are both truthy
(the record is modelled by its assignment list). -/
def gmailHeadersToRecord (hs : List GmailHeader) : List (String × HVal) :=
  hs.filterMap (fun h =>
    match h.name, h.value with
    | some n, some v => if n ≠ "" && v ≠ "" then some (n, HVal.str v) else none
    | _, _ => none)

/-- `GmailProvider.parseGmailMessage` (src/providers/gmail.ts). -/
def parseGmailMessage (b64 : String → String) (message : GmailSchemaMessage) :
    EmailMessage :=
  let headers := (message.payload.bind GmailMessagePart.headers).getD []
  { id := message.id.getD ""
    uid := jsParseIntOrZero (jsOrStr message.id "0")
    subject := gmailGetHeader headers "Subject"
    «from» := (gmailParseAddresses (gmailGetHeader headers "From")).headD ⟨none, "unknown"⟩
    «to» := gmailParseAddresses (gmailGetHeader headers "To")
    cc := some (gmailParseAddresses (gmailGetHeader headers "Cc"))
    bcc := some (gmailParseAddresses (gmailGetHeader headers "Bcc"))
    date := JsDate.parsedFrom (jsOrStr message.internalDate "0")
    headers := gmailHeadersToRecord headers
    text := match message.payload with
            | some p => extractTextContent b64 p
            | none => none
    html := match message.payload with
            | some p => extractHtmlContent b64 p
            | none => none
    attachments := match message.payload with
                   | some p => gmailCollectAtts p
                   | none => []
    labels := message.labelIds
    flags := some []
    folder := none
    raw := match message.raw with
           | some r => if r = "" then none else some (b64 r)
           | none => none }

/-- Subset of a JMAP `EmailAddress` object. -/
structure JmapEmailAddress where
  name : Option String
  email : String
deriving DecidableEq, Repr

/-- Subset of a JMAP `EmailBodyValue`. -/
structure JmapBodyValue where
  value : String
  isEncodingProblem : Bool
  isTruncated : Bool
deriving DecidableEq, Repr

/-- Subset of a JMAP `EmailBodyPart` read by `convertJmapEmail`. -/
structure JmapBodyPart where
  partId : Option String
  blobId : Option String
  size : Nat
  name : Option String
  type : String
  cid : Option String
deriving DecidableEq, Repr

/-- Subset of a JMAP `Email` object read by `convertJmapEmail`
(`keywords`, `bodyValues` and `mailboxIds` records modelled by their entry
lists). -/
structure JmapEmail where
  id : String
  keywords : Option (List (String × Bool))
  «from» : Option (List JmapEmailAddress)
  «to» : Option (List JmapEmailAddress)
  cc : Option (List JmapEmailAddress)
  bcc : Option (List JmapEmailAddress)
  subject : Option String
  receivedAt : String
  textBody : Option (List JmapBodyPart)
  htmlBody : Option (List JmapBodyPart)
  attachments : Option (List JmapBodyPart)
  bodyValues : Option (List (String × JmapBodyValue))
  mailboxIds : Option (List (String × Bool))
deriving DecidableEq, Repr

/-- JS object-property lookup in a record modelled by its entry list. -/
def recGetV {α : Type} (l : List (String × α)) (k : String) : Option α :=
  l.foldl (fun acc kv => if kv.1 = k then some kv.2 else acc) none

/-- The body-extraction loop: first part whose (truthy) `partId` resolves in
`bodyValues` wins; its `value` is taken even when empty. -/
def firstBodyValue (parts : List JmapBodyPart)
    (bvs : List (String × JmapBodyValue)) : Option String :=
  parts.findSome? (fun part =>
    match part.partId with
    | some pid => if pid = "" then none else (recGetV bvs pid).map JmapBodyValue.value
    | none => none)

/-- The keyword-to-flag conversion block of `convertJmapEmail`. -/
def jmapFlags (kws : Option (List (String × Bool))) : List String :=
  match kws with
  | some k =>
    (if recGetB k "$seen" then ["\\Seen"] else []) ++
    (if recGetB k "$flagged" then ["\\Flagged"] else []) ++
    (if recGetB k "$answered" then ["\\Answered"] else []) ++
    (if recGetB k "$draft" then ["\\Draft"] else [])
  | none => []

/-- `addr.name || undefined` conversion of a JMAP address list. -/
def jmapAddrList (l : Option (List JmapEmailAddress)) : List EmailAddress :=
  (l.getD []).map (fun a =>
    { name := match a.name with
              | some n => if n = "" then none else some n
              | none => none
      address := a.email })

/-- `JmapProvider.convertJmapEmail` (src/providers/jmap.ts). -/
def convertJmapEmail (cache : List (String × JmapMailbox)) (email : JmapEmail)
    (folder : String) : EmailMessage :=
  { id := email.id
    uid := digitsVal (email.id.data.filter Char.isDigit)
    subject := jsOrStr email.subject "(No Subject)"
    «from» := match email.«from» with
              | some (a :: _) =>
                { name := match a.name with
                          | some n => if n = "" then none else some n
                          | none => none
                  address := a.email }
              | _ => { name := none, address := "unknown" }
    «to» := jmapAddrList email.«to»
    cc := some (jmapAddrList email.cc)
    bcc := some (jmapAddrList email.bcc)
    date := JsDate.parsedFrom email.receivedAt
    headers := []
    text := match email.textBody, email.bodyValues with
            | some tb, some bvs => firstBodyValue tb bvs
            | _, _ => none
    html := match email.htmlBody, email.bodyValues with
            | some hb, some bvs => firstBodyValue hb bvs
            | _, _ => none
    attachments := (email.attachments.getD []).map (fun att =>
      { filename := jsOrStr att.name "attachment"
        contentType := att.type
        size := att.size
        content := none
        contentId := match att.cid with
                     | some c => if c = "" then none else some c
                     | none => none })
    labels := some ((email.mailboxIds.getD []).filterMap (fun kv =>
      (recGetV cache kv.1).map JmapMailbox.name))
    folder := some folder
    flags := some (jmapFlags email.keywords)
    raw := none }

end Backupmail.Providers

namespace Backupmail

/-- Concrete message whose raw content carries an unescaped `From ` line
(used to witness C1). -/
def c1WitnessMsg : EmailMessage :=
  { id := "w1", uid := 1, subject := "s", «from» := ⟨none, "a@x"⟩, «to» := [],
    cc := none, bcc := none, date := ⟨"D", "DU", "DI"⟩, headers := [],
    text := none, html := none, attachments := [],
    raw := some "From x\nplain", labels := none, folder := none, flags := none }

/-- Concrete message whose raw content carries an already-escaped
`>From ` line (C1 counterexample input). -/
def c1CexMsg : EmailMessage :=
  { c1WitnessMsg with id := "c1", raw := some ">From x\nFrom y" }

end Backupmail

namespace Backupmail

/-- Absence of line-terminator characters; on `\r`-free input the model's
line handling agrees exactly with the JS regexes (JS multiline `^` also
fires after a bare `\r`, which this code never produces itself). -/
def charClean (s : String) : Prop := '\n' ∉ s.data ∧ '\r' ∉ s.data

/-- Messages for which the MBOX export/import pair is lossless on subject
and sender: no raw override, no attachments (whose MIME boundary is
freshly randomized per call), header-safe field contents, and a body none
of whose lines contains a colon (the importer's header scan does not stop
at the blank separator line — `if (!line) continue` runs first — so a
colon-bearing body line would be recorded as a header assignment and could
override `Subject`/`From`). -/
def mboxRoundSafe (m : EmailMessage) : Prop :=
  m.raw = none ∧
  m.attachments = [] ∧
  m.subject ≠ "" ∧ charClean m.subject ∧
  m.subject.data.dropWhile jsWs = m.subject.data ∧
  m.«from».name = none ∧ m.«from».address ≠ "" ∧
  (∀ c ∈ m.«from».address.data, jsWs c = false ∧ c ≠ '<') ∧
  (∀ a ∈ m.«to», charClean a.address ∧ charClean (a.name.getD "")) ∧
  (∀ a ∈ m.cc.getD [], charClean a.address ∧ charClean (a.name.getD "")) ∧
  charClean m.id ∧
  charClean m.date.toStringRepr ∧ charClean m.date.toUTCStringRepr ∧
  (∀ kv ∈ m.headers, kv.1 ≠ "" ∧ ':' ∉ kv.1.data ∧ charClean kv.1 ∧ charClean kv.2.render) ∧
  '\r' ∉ (jsOrStr m.html (jsOrStr m.text "")).data ∧
  (∀ l ∈ splitNl (jsOrStr m.html (jsOrStr m.text "")), ':' ∉ l.data)

instance (s : String) : Decidable (charClean s) := by
  unfold charClean
  infer_instance

instance (m : EmailMessage) : Decidable (mboxRoundSafe m) := by
  unfold mboxRoundSafe
  infer_instance

end Backupmail

namespace Backupmail.MboxImporter

/-- Derived view of the header scan: the assignments it records (the break
fires at the first nonempty whitespace-only line; truly empty lines are
skipped). -/
def collectH : List String → List (String × String)
  | [] => []
  | l :: ls =>
    if l = "" then collectH ls
    else if jsTrim l = "" then []
    else
      match matchHeader l with
      | some kv => kv :: collectH ls
      | none => collectH ls

end Backupmail.MboxImporter

namespace Backupmail

/-- The escaped-content lines of one exported entry followed by the blank
separator line (derived view). -/
def entryMid (boundary : String) (m : EmailMessage) : List String :=
  (splitNl (MboxExporter.messageContent boundary m)).map MboxExporter.escapeLine ++ [""]

/-- What remains of an entry's envelope line after `split(/^From /m)`
consumes the match. -/
def restLine (m : EmailMessage) : String :=
  jsOrS m.«from».address "unknown" ++ " " ++ m.date.toStringRepr

/-- The segment `split(/^From /m)` produces for one exported message
(derived view). -/
def segOf (boundary : String) (m : EmailMessage) : String :=
  joinNl (restLine m :: entryMid boundary m ++ [""])

/-- First witness message for the MBOX round trip. -/
def c2MsgA : EmailMessage :=
  { id := "a1", uid := 1, subject := "Hello A", «from» := ⟨none, "alice@x.com"⟩,
    «to» := [⟨some "Bob", "bob@x.com"⟩], cc := none, bcc := none,
    date := ⟨"Mon Jan 01 2024", "Mon, 01 Jan 2024 00:00:00 GMT", "2024-01-01T00:00:00.000Z"⟩,
    headers := [("X-Custom", .str "v1")], text := some "body one\nsecond line", html := none,
    attachments := [], raw := none, labels := none, folder := none, flags := none }

/-- Second witness message for the MBOX round trip. -/
def c2MsgB : EmailMessage :=
  { c2MsgA with
    id := "b2"
    uid := 2
    subject := "World B"
    «from» := ⟨none, "carol@y.com"⟩
    text := some "From the body" }

/-- Counterexample message for C2 as stated: subjects are distinct,
senders are distinct — but the body line `Subject: evil` is recorded by the
importer's header scan (which does not stop at the blank line) and
overrides the real subject. -/
def c2CexMsg : EmailMessage :=
  { c2MsgA with
    subject := "Good"
    text := some "Subject: evil" }

end Backupmail

namespace Backupmail

/-- The character class `[A-Za-z0-9_-]` as the specification words it. -/
def specAllowedChar (c : Char) : Bool :=
  ('A' ≤ c && c ≤ 'Z') || ('a' ≤ c && c ≤ 'z') || ('0' ≤ c && c ≤ '9') || c = '_' || c = '-'

/-- Specification-side replacement step: every character outside
`[A-Za-z0-9_-]` becomes an underscore. -/
def specReplChar (c : Char) : Char := if specAllowedChar c then c else '_'

/-- Specification-side run collapsing: of each maximal run of underscores
only one survives (an underscore that would be emitted directly in front of
another underscore is dropped). -/
def specCollapseRuns (cs : List Char) : List Char :=
  cs.foldr (fun c acc =>
    if c = '_' ∧ acc.headD 'x' = '_' then acc else c :: acc) []

/-- The folder-name sanitizer as the specification describes it: replace
characters outside `[A-Za-z0-9_-]` with `'_'`, collapse runs of `'_'` to a
single `'_'`, lowercase the result.  Compared against the per-exporter
implementations (refinement). -/
def specSanitizeFolderName (folder : String) : String :=
  String.mk ((specCollapseRuns (folder.data.map specReplChar)).map asciiLowerChar)

end Backupmail

namespace Backupmail.Providers

/-- A parsed IMAP message that carries no subject (mailparser yielded
nothing for the `Subject` header). -/
def c3Parsed : ParsedMail :=
  { messageId := none
    subject := none
    «from» := none
    «to» := none
    cc := none
    bcc := none
    date := none
    headers := []
    text := none
    html := none
    attachments := none
    raw := none }

/-- A JMAP email object without a subject field. -/
def c3Jmap : JmapEmail :=
  { id := "e1"
    keywords := none
    «from» := none
    «to» := none
    cc := none
    bcc := none
    subject := none
    receivedAt := "2024-01-01T00:00:00Z"
    textBody := none
    htmlBody := none
    attachments := none
    bodyValues := none
    mailboxIds := none }

/-- A Gmail API message carrying a `From` header but no `Subject` header. -/
def c3Gmail : GmailSchemaMessage :=
  { id := some "123"
    labelIds := none
    internalDate := none
    payload := some (.mk none none (some [⟨some "From", some "a@b.c"⟩]) none none)
    raw := none }

/-- A JMAP email whose keywords set `$seen` and an unrecognized keyword. -/
def c7Email : JmapEmail :=
  { c3Jmap with
    id := "e7"
    keywords := some [("$seen", true), ("custom", true)] }

end Backupmail.Providers

namespace Backupmail

/-- An attachment without binary content. -/
def c9Att : Attachment :=
  { filename := "b.bin"
    contentType := "application/octet-stream"
    size := 5
    content := none
    contentId := none }

/-- A message with one content-bearing and one content-free attachment. -/
def c9Msg : EmailMessage :=
  { c2MsgA with
    id := "j9"
    attachments :=
      [{ filename := "a.txt"
         contentType := "text/plain"
         size := 2
         content := some [104, 105]
         contentId := none },
       c9Att] }

/-- Default used only to take the head of a nonempty serialized list. -/
def c9Dummy : JsonExporter.JsonMessageOut :=
  { id := ""
    uid := 0
    subject := ""
    «from» := ⟨none, ""⟩
    «to» := []
    cc := none
    bcc := none
    date := ""
    headers := []
    text := none
    html := none
    attachments := []
    labels := none
    folder := none
    flags := none }

end Backupmail

-- ===== additional definitions end here; theorems follow =====

namespace Backupmail

theorem consHd_ne_nil (c : Char) (ls : List (List Char)) : consHd c ls ≠ [] := by
  cases ls <;> simp [consHd]

theorem splitChData_ne_nil (sep : Char) (cs : List Char) : splitChData sep cs ≠ [] := by
  induction cs with
  | nil => simp [splitChData]
  | cons c cs _ =>
    simp only [splitChData]
    split
    · simp
    · exact consHd_ne_nil c _

theorem consHd_append (c : Char) (xs ys : List (List Char)) (h : xs ≠ []) :
    consHd c (xs ++ ys) = consHd c xs ++ ys := by
  cases xs with
  | nil => exact absurd rfl h
  | cons a t => simp [consHd]

theorem splitChData_append (sep : Char) (A B : List Char) :
    splitChData sep (A ++ sep :: B) = splitChData sep A ++ splitChData sep B := by
  induction A with
  | nil => simp [splitChData]
  | cons a A ih =>
    simp only [List.cons_append, splitChData, List.append_eq]
    split
    · simp [ih]
    · rw [ih, consHd_append a _ _ (splitChData_ne_nil sep A)]

theorem splitChData_of_not_mem (sep : Char) (A : List Char) (h : sep ∉ A) :
    splitChData sep A = [A] := by
  induction A with
  | nil => rfl
  | cons a A ih =>
    have ha : ¬(a = sep) := fun he => h (he ▸ List.mem_cons_self a A)
    have hA : sep ∉ A := fun hm => h (List.mem_cons_of_mem a hm)
    simp [splitChData, ha, ih hA, consHd]

theorem mem_splitChData_not_mem (sep : Char) (cs : List Char) :
    ∀ l ∈ splitChData sep cs, sep ∉ l := by
  induction cs with
  | nil =>
    intro l hl
    simp [splitChData] at hl
    subst hl
    simp
  | cons c cs ih =>
    intro l hl
    simp only [splitChData] at hl
    split at hl
    · rcases List.mem_cons.mp hl with rfl | hl
      · simp
      · exact ih l hl
    · rename_i hc
      cases hsp : splitChData sep cs with
      | nil => exact absurd hsp (splitChData_ne_nil sep cs)
      | cons h0 t =>
        rw [hsp] at hl
        simp only [consHd] at hl
        rcases List.mem_cons.mp hl with rfl | hl
        · intro hmem
          rcases List.mem_cons.mp hmem with he | hmem
          · exact hc he.symm
          · exact ih h0 (hsp ▸ List.mem_cons_self h0 t) hmem
        · exact ih l (hsp ▸ List.mem_cons_of_mem h0 hl)

theorem splitChData_joinChData (sep : Char) (ls : List (List Char))
    (h : ∀ l ∈ ls, sep ∉ l) (hne : ls ≠ []) :
    splitChData sep (joinChData sep ls) = ls := by
  induction ls with
  | nil => exact absurd rfl hne
  | cons l ls ih =>
    cases ls with
    | nil => simp [joinChData, splitChData_of_not_mem sep l (h l (by simp))]
    | cons l2 ls2 =>
      have hjoin : joinChData sep (l :: l2 :: ls2) = l ++ sep :: joinChData sep (l2 :: ls2) := rfl
      rw [hjoin, splitChData_append, splitChData_of_not_mem sep l (h l (by simp)),
        ih (fun x hx => h x (List.mem_cons_of_mem l hx)) (by simp)]
      rfl

theorem splitNl_ne_nil (s : String) : splitNl s ≠ [] := by
  unfold splitNl splitNlData
  simp only [ne_eq, List.map_eq_nil_iff]
  exact splitChData_ne_nil '\n' s.data

theorem mem_splitNl_no_nl (s : String) : ∀ l ∈ splitNl s, '\n' ∉ l.data := by
  intro l hl
  rcases List.mem_map.mp hl with ⟨d, hd, rfl⟩
  exact mem_splitChData_not_mem '\n' s.data d hd

theorem splitNl_joinNl (ls : List String) (h : ∀ l ∈ ls, '\n' ∉ l.data)
    (hne : ls ≠ []) : splitNl (joinNl ls) = ls := by
  unfold splitNl joinNl splitNlData joinNlData
  have hdata : (String.mk (joinChData '\n' (ls.map String.data))).data
      = joinChData '\n' (ls.map String.data) := rfl
  rw [hdata, splitChData_joinChData '\n' _
    (by
      intro l hl
      rcases List.mem_map.mp hl with ⟨s, hs, rfl⟩
      exact h s hs)
    (by simpa using hne)]
  rw [List.map_map]
  have : (String.mk ∘ String.data) = id := by
    funext s
    rfl
  rw [this, List.map_id]

end Backupmail

namespace Backupmail.MboxExporter

theorem no_nl_escapeLine (l : String) (h : '\n' ∉ l.data) :
    '\n' ∉ (escapeLine l).data := by
  unfold escapeLine
  split
  · rw [String.data_append]
    intro hmem
    rcases List.mem_append.mp hmem with hg | hl
    · simp [show (">" : String).data = ['>'] from rfl] at hg
    · exact h hl
  · exact h

theorem escapeFromLines_lines (s : String) :
    splitNl (escapeFromLines s) = (splitNl s).map escapeLine := by
  unfold escapeFromLines
  rw [splitNl_joinNl]
  · intro l hl
    rcases List.mem_map.mp hl with ⟨l0, hl0, rfl⟩
    exact no_nl_escapeLine l0 (mem_splitNl_no_nl s l0 hl0)
  · simp only [ne_eq, List.map_eq_nil_iff]
    exact splitNl_ne_nil s

theorem entry_append_lines (boundary : String) (m : EmailMessage) (s : String) :
    splitNl (messageToMboxEntry boundary m ++ s) = coreLines boundary m ++ splitNl s := by
  unfold messageToMboxEntry coreLines
  show (splitChData '\n'
      ((createFromLine m ++ "\n" ++ escapeFromLines (messageContent boundary m) ++ "\n\n" ++ s).data)).map
      String.mk = _
  have hdata :
      (createFromLine m ++ "\n" ++ escapeFromLines (messageContent boundary m) ++ "\n\n" ++ s).data
        = (createFromLine m).data ++
            '\n' :: ((escapeFromLines (messageContent boundary m)).data ++ '\n' :: ('\n' :: s.data)) := by
    simp only [String.data_append]
    simp [List.append_assoc]
  rw [hdata, splitChData_append, splitChData_append]
  have hnl : splitChData '\n' ('\n' :: s.data) = [] :: splitChData '\n' s.data := by
    simp [splitChData]
  rw [hnl]
  simp only [List.map_append, List.map_cons]
  have hesc : (splitChData '\n' ((escapeFromLines (messageContent boundary m)).data)).map String.mk
      = (splitNl (messageContent boundary m)).map escapeLine := escapeFromLines_lines _
  rw [hesc]
  simp [splitNl, splitNlData, List.append_assoc]

theorem messagesToMbox_shift (boundary : String) (a : String) (ms : List EmailMessage) :
    ms.foldl (fun acc m => acc ++ messageToMboxEntry boundary m) a
      = a ++ ms.foldl (fun acc m => acc ++ messageToMboxEntry boundary m) "" := by
  induction ms generalizing a with
  | nil => simp [String.append_empty]
  | cons m ms ih =>
    simp only [List.foldl_cons]
    rw [ih (a ++ messageToMboxEntry boundary m), ih ("" ++ messageToMboxEntry boundary m),
      String.empty_append, String.append_assoc]

theorem messagesToMbox_cons (boundary : String) (m : EmailMessage) (ms : List EmailMessage) :
    messagesToMbox boundary (m :: ms)
      = messageToMboxEntry boundary m ++ messagesToMbox boundary ms := by
  unfold messagesToMbox
  simp only [List.foldl_cons]
  rw [messagesToMbox_shift boundary ("" ++ messageToMboxEntry boundary m) ms, String.empty_append]

theorem mbox_lines (boundary : String) (ms : List EmailMessage) :
    splitNl (messagesToMbox boundary ms) = ms.flatMap (coreLines boundary) ++ [""] := by
  induction ms with
  | nil => rfl
  | cons m ms ih =>
    rw [messagesToMbox_cons, entry_append_lines, ih]
    simp [List.append_assoc]

end Backupmail.MboxExporter

namespace Backupmail

theorem beginsWith_gtFrom_not_from (l : String)
    (h : beginsWith ">From ".data l.data = true) :
    beginsWith "From ".data l.data = false := by
  cases hd : l.data with
  | nil =>
    rw [hd] at h
    simp [beginsWith, show (">From " : String).data = ['>', 'F', 'r', 'o', 'm', ' '] from rfl] at h
  | cons c rest =>
    rw [hd] at h
    have hc : c = '>' := by
      rw [show (">From " : String).data = ['>', 'F', 'r', 'o', 'm', ' '] from rfl] at h
      simp [beginsWith] at h
      exact h.1.symm
    rw [show ("From " : String).data = ['F', 'r', 'o', 'm', ' '] from rfl]
    simp [beginsWith, hc]

/-- C1 (amended): in the MBOX output, every line of a message's content that
begins with `"From "` appears prefixed with exactly one `">"`, and a line
already escaped as `">From "` appears unchanged — the escaping is *not*
repeated for already-escaped lines. -/
theorem mbox_export_from_line_escaping (boundary : String) (ms : List EmailMessage)
    (m : EmailMessage) (l : String) (hm : m ∈ ms)
    (hl : l ∈ splitNl (MboxExporter.messageContent boundary m)) :
    (beginsWith "From ".data l.data = true →
      (">" ++ l) ∈ splitNl (MboxExporter.messagesToMbox boundary ms)) ∧
    (beginsWith ">From ".data l.data = true →
      l ∈ splitNl (MboxExporter.messagesToMbox boundary ms)) := by
  rw [MboxExporter.mbox_lines]
  constructor
  · intro hFrom
    apply List.mem_append_left
    apply List.mem_flatMap.mpr
    refine ⟨m, hm, ?_⟩
    unfold MboxExporter.coreLines
    apply List.mem_append_left
    apply List.mem_append_right
    apply List.mem_map.mpr
    refine ⟨l, hl, ?_⟩
    unfold MboxExporter.escapeLine
    rw [if_pos hFrom]
  · intro hGtFrom
    have hne := beginsWith_gtFrom_not_from l hGtFrom
    apply List.mem_append_left
    apply List.mem_flatMap.mpr
    refine ⟨m, hm, ?_⟩
    unfold MboxExporter.coreLines
    apply List.mem_append_left
    apply List.mem_append_right
    apply List.mem_map.mpr
    refine ⟨l, hl, ?_⟩
    unfold MboxExporter.escapeLine
    simp [hne]

/-- Witness for C1: a concrete message whose raw content contains the line
`From x`; the export contains `>From x`. -/
theorem mbox_export_from_line_escaping_witness :
    (">" ++ "From x") ∈ splitNl (MboxExporter.messagesToMbox "B" [c1WitnessMsg]) :=
  (mbox_export_from_line_escaping "B" [c1WitnessMsg] c1WitnessMsg "From x"
    (by decide) (by decide)).1 (by decide)

/-- Counterexample to C1 as stated: for a message whose content contains the
already-escaped line `>From x`, the exported entry still contains `>From x`
and does *not* contain the doubly-escaped `>>From x` the claim requires. -/
theorem mbox_export_no_double_escaping_cex :
    ">From x" ∈ splitNl (MboxExporter.messageContent "B" c1CexMsg) ∧
    ">From x" ∈ splitNl (MboxExporter.messageToMboxEntry "B" c1CexMsg) ∧
    ">>From x" ∉ splitNl (MboxExporter.messageToMboxEntry "B" c1CexMsg) := by
  refine ⟨by decide, by decide, by decide⟩

end Backupmail

namespace Backupmail

theorem splitNl_of_no_nl (s : String) (h : '\n' ∉ s.data) : splitNl s = [s] := by
  unfold splitNl splitNlData
  rw [splitChData_of_not_mem '\n' s.data h]
  rfl

theorem joinNl_cons (a : String) (rest : List String) (h : rest ≠ []) :
    joinNl (a :: rest) = a ++ "\n" ++ joinNl rest := by
  unfold joinNl joinNlData
  cases rest with
  | nil => exact absurd rfl h
  | cons b t =>
    apply String.ext
    show joinChData '\n' (a.data :: (b :: t).map String.data)
      = (a ++ "\n" ++ joinNl (b :: t)).data
    rw [show joinChData '\n' (a.data :: (b :: t).map String.data)
        = a.data ++ '\n' :: joinChData '\n' ((b :: t).map String.data) from rfl]
    simp [String.data_append, joinNl, joinNlData]

theorem splitNl_append_nl (a b : String) :
    splitNl (a ++ "\n" ++ b) = splitNl a ++ splitNl b := by
  unfold splitNl splitNlData
  have hdata : (a ++ "\n" ++ b).data = a.data ++ '\n' :: b.data := by
    simp [String.data_append]
  rw [hdata, splitChData_append, List.map_append]

theorem splitNl_joinNl_last (A : List String) (b : String)
    (hA : ∀ l ∈ A, '\n' ∉ l.data) : splitNl (joinNl (A ++ [b])) = A ++ splitNl b := by
  induction A with
  | nil => rfl
  | cons a A ih =>
    rw [show (a :: A) ++ [b] = a :: (A ++ [b]) from rfl,
      joinNl_cons a (A ++ [b]) (by simp), splitNl_append_nl,
      splitNl_of_no_nl a (hA a (by simp)), ih (fun l hl => hA l (by simp [hl]))]
    rfl

theorem dropWhile_head_false {p : Char → Bool} :
    ∀ (d : List Char) (a : Char) (t : List Char), d.dropWhile p = a :: t → p a = false := by
  intro d
  induction d with
  | nil =>
    intro a t h
    simp [List.dropWhile] at h
  | cons c cs ih =>
    intro a t h
    rw [List.dropWhile_cons] at h
    split at h
    · exact ih a t h
    · cases h
      rename_i hc
      simpa using hc

theorem jsTrim_eq_empty (s : String) (h : jsTrim s = "") :
    ∀ c ∈ s.data, jsWs c = true := by
  unfold jsTrim at h
  have hdata : (((s.data.dropWhile jsWs).reverse.dropWhile jsWs).reverse) = [] := by
    have := congrArg String.data h
    simpa using this
  rw [List.reverse_eq_nil_iff] at hdata
  cases hfront : s.data.dropWhile jsWs with
  | nil => exact List.dropWhile_eq_nil_iff.mp hfront
  | cons a t =>
    exfalso
    have hws : jsWs a = true := by
      have ha : a ∈ (s.data.dropWhile jsWs).reverse := by
        rw [hfront]
        simp
      exact List.dropWhile_eq_nil_iff.mp hdata a ha
    have := dropWhile_head_false s.data a t hfront
    rw [this] at hws
    exact Bool.false_ne_true hws

end Backupmail

namespace Backupmail

theorem charClean_append {a b : String} (ha : charClean a) (hb : charClean b) :
    charClean (a ++ b) := by
  unfold charClean at *
  rw [String.data_append]
  constructor
  · intro h
    rcases List.mem_append.mp h with h | h
    · exact ha.1 h
    · exact hb.1 h
  · intro h
    rcases List.mem_append.mp h with h | h
    · exact ha.2 h
    · exact hb.2 h

theorem charClean_of_nonws (s : String) (h : ∀ c ∈ s.data, jsWs c = false ∧ c ≠ '<') :
    charClean s := by
  unfold charClean
  constructor
  · intro hmem
    have := (h '\n' hmem).1
    simp [jsWs] at this
  · intro hmem
    have := (h '\r' hmem).1
    simp [jsWs] at this

theorem beginsWith_self_append : ∀ (p x : List Char), beginsWith p (p ++ x) = true := by
  intro p
  induction p with
  | nil => intro x; rfl
  | cons c cs ih => intro x; simp [beginsWith, ih]

theorem beginsWith_false_of_ne {p c : Char} {ps cs : List Char} (h : ¬(p = c)) :
    beginsWith (p :: ps) (c :: cs) = false := by
  simp [beginsWith, h]

theorem charClean_commaSpJoin (ls : List String) (h : ∀ s ∈ ls, charClean s) :
    charClean (commaSpJoin ls) := by
  induction ls with
  | nil => exact ⟨by decide, by decide⟩
  | cons s ls ih =>
    cases ls with
    | nil => exact h s (by simp)
    | cons b t =>
      rw [show commaSpJoin (s :: b :: t) = s ++ ", " ++ commaSpJoin (b :: t) from rfl]
      exact charClean_append
        (charClean_append (h s (by simp)) ⟨by decide, by decide⟩)
        (ih (fun x hx => h x (by simp [hx])))

end Backupmail

namespace Backupmail.MboxExporter

theorem escapeLine_not_from (l : String) :
    beginsWith "From ".data (escapeLine l).data = false := by
  unfold escapeLine
  split
  · rw [show ((">" ++ l : String)).data = '>' :: l.data from by
      rw [String.data_append]; rfl]
    exact beginsWith_false_of_ne (by decide)
  · rename_i h
    simpa using h

theorem escapeLine_empty : escapeLine "" = "" := rfl

theorem formatAddress_of_no_name (a : EmailAddress) (h : a.name = none) :
    formatAddress a = a.address := by
  unfold formatAddress
  rw [h]

end Backupmail.MboxExporter

namespace Backupmail

theorem recGet_go (k : String) :
    ∀ (l : List (String × String)) (acc : Option String),
      l.foldl (fun acc kv => if kv.1 = k then some kv.2 else acc) acc
        = match recGet l k with
          | some v => some v
          | none => acc := by
  intro l
  induction l with
  | nil => intro acc; rfl
  | cons kv l ih =>
    intro acc
    have hcons : recGet (kv :: l) k
        = match recGet l k with
          | some v => some v
          | none => if kv.1 = k then some kv.2 else none := by
      show l.foldl _ (if kv.1 = k then some kv.2 else none) = _
      rw [ih]
    rw [List.foldl_cons, ih, hcons]
    cases recGet l k with
    | some v => rfl
    | none =>
      by_cases hk : kv.1 = k
      · simp [hk]
      · simp [hk]

theorem recGet_append (A B : List (String × String)) (k : String) :
    recGet (A ++ B) k
      = match recGet B k with
        | some v => some v
        | none => recGet A k := by
  show (A ++ B).foldl _ none = _
  rw [List.foldl_append]
  rw [recGet_go k B (A.foldl (fun acc kv => if kv.1 = k then some kv.2 else acc) none)]
  rfl

theorem recGet_none_of_keys (l : List (String × String)) (k : String)
    (h : ∀ e ∈ l, e.1 ≠ k) : recGet l k = none := by
  induction l with
  | nil => rfl
  | cons kv l ih =>
    unfold recGet
    simp only [List.foldl_cons, if_neg (h kv (by simp))]
    exact ih (fun e he => h e (by simp [he]))

theorem recGet_last (L1 L2 : List (String × String)) (k v : String)
    (h2 : ∀ e ∈ L2, e.1 ≠ k) : recGet (L1 ++ (k, v) :: L2) k = some v := by
  rw [recGet_append]
  have h1 : recGet ((k, v) :: L2) k = some v := by
    have hstep : recGet ((k, v) :: L2) k
        = match recGet L2 k with
          | some w => some w
          | none => if ((k, v) : String × String).1 = k then some v else none := by
      show L2.foldl _ (if ((k, v) : String × String).1 = k then some v else none) = _
      rw [recGet_go]
    rw [hstep, recGet_none_of_keys L2 k h2]
    simp
  rw [h1]

end Backupmail

namespace Backupmail.MboxImporter

theorem splitAtColon_append (K R : List Char) (hK : ':' ∉ K) :
    splitAtColon (K ++ ':' :: R) = some (K, R) := by
  induction K with
  | nil => rfl
  | cons c K ih =>
    have hc : ¬(c = ':') := fun he => hK (he ▸ List.mem_cons_self c K)
    have hK' : ':' ∉ K := fun hm => hK (List.mem_cons_of_mem c hm)
    simp [splitAtColon, hc, ih hK']

theorem splitAtColon_none (cs : List Char) (h : ':' ∉ cs) : splitAtColon cs = none := by
  induction cs with
  | nil => rfl
  | cons c cs ih =>
    have hc : ¬(c = ':') := fun he => h (he ▸ List.mem_cons_self c cs)
    have hcs : ':' ∉ cs := fun hm => h (List.mem_cons_of_mem c hm)
    simp [splitAtColon, hc, ih hcs]

theorem matchHeader_none_of_no_colon (l : String) (h : ':' ∉ l.data) :
    matchHeader l = none := by
  unfold matchHeader
  rw [splitAtColon_none l.data h]

theorem matchHeader_of_data (l : String) (K V : List Char)
    (hl : l.data = K ++ ':' :: (' ' :: V)) (hK : ':' ∉ K) (hKne : K ≠ [])
    (hV : V.dropWhile jsWs = V) (hVne : V ≠ []) :
    matchHeader l = some (String.mk K, String.mk V) := by
  unfold matchHeader
  rw [hl, splitAtColon_append K (' ' :: V) hK]
  have hlead : dropLeadWs (' ' :: V) = V := by
    unfold dropLeadWs
    rw [List.dropWhile_cons_of_pos (by decide)]
    exact hV
  simp [hKne, hlead, hVne]

theorem matchHeader_key (l : String) (K R : List Char)
    (hl : l.data = K ++ ':' :: R) (hK : ':' ∉ K) (hKne : K ≠ []) :
    matchHeader l = none ∨ ∃ v, matchHeader l = some (String.mk K, v) := by
  unfold matchHeader
  rw [hl, splitAtColon_append K R hK]
  by_cases hv : dropLeadWs R = []
  · left
    simp [hKne, hv]
  · right
    exact ⟨String.mk (dropLeadWs R), by simp [hKne, hv]⟩

theorem scanHeaders_fst :
    ∀ (ls : List String) (i : Nat) (acc : List (String × String)),
      (scanHeaders ls i acc).1 = acc ++ collectH ls := by
  intro ls
  induction ls with
  | nil => intro i acc; simp [scanHeaders, collectH]
  | cons l ls ih =>
    intro i acc
    unfold scanHeaders collectH
    by_cases h1 : l = ""
    · simp only [if_pos h1]
      exact ih (i + 1) acc
    · simp only [if_neg h1]
      by_cases h2 : jsTrim l = ""
      · simp [if_pos h2]
      · simp only [if_neg h2]
        cases hm : matchHeader l with
        | some kv =>
          rw [ih (i + 1) (acc ++ [kv])]
          simp
        | none => exact ih (i + 1) acc

theorem collectH_append_colon (A B : List String)
    (h : ∀ l ∈ A, ':' ∈ l.data) :
    collectH (A ++ B) = A.filterMap matchHeader ++ collectH B := by
  induction A with
  | nil => rfl
  | cons l A ih =>
    have hcolon : ':' ∈ l.data := h l (by simp)
    have h1 : ¬(l = "") := by
      intro he
      rw [he] at hcolon
      simp at hcolon
    have h2 : ¬(jsTrim l = "") := by
      intro he
      have := jsTrim_eq_empty l he ':' hcolon
      simp [jsWs] at this
    rw [List.cons_append, collectH.eq_def]
    simp only [if_neg h1, if_neg h2]
    cases hm : matchHeader l with
    | some kv =>
      rw [ih (fun x hx => h x (by simp [hx]))]
      simp only [List.filterMap_cons, hm, List.cons_append]
    | none =>
      rw [ih (fun x hx => h x (by simp [hx]))]
      simp only [List.filterMap_cons, hm]

theorem collectH_nil_of_none (B : List String)
    (h : ∀ l ∈ B, matchHeader l = none) : collectH B = [] := by
  induction B with
  | nil => rfl
  | cons l B ih =>
    unfold collectH
    by_cases h1 : l = ""
    · simp only [if_pos h1]
      exact ih (fun x hx => h x (by simp [hx]))
    · simp only [if_neg h1]
      by_cases h2 : jsTrim l = ""
      · simp [if_pos h2]
      · simp only [if_neg h2]
        rw [h l (by simp)]
        exact ih (fun x hx => h x (by simp [hx]))

theorem segsAux_skip (nf : List String)
    (h : ∀ l ∈ nf, beginsWith "From ".data l.data = false) :
    ∀ (cur rest : List String),
      segsAux cur (nf ++ rest) = segsAux (cur ++ nf) rest := by
  induction nf with
  | nil => intro cur rest; simp
  | cons l nf ih =>
    intro cur rest
    rw [List.cons_append, segsAux.eq_def]
    simp only [h l (by simp), Bool.false_eq_true, if_false]
    rw [ih (fun x hx => h x (by simp [hx])) (cur ++ [l]) rest]
    simp

end Backupmail.MboxImporter

namespace Backupmail

theorem dropWhile_eq_self_of_all_false {p : Char → Bool} (d : List Char)
    (h : ∀ c ∈ d, p c = false) : d.dropWhile p = d := by
  cases d with
  | nil => rfl
  | cons c cs => rw [List.dropWhile_cons_of_neg (by simp [h c (by simp)])]

theorem jsTrim_eq_self (s : String) (h : ∀ c ∈ s.data, jsWs c = false) :
    jsTrim s = s := by
  unfold jsTrim
  rw [dropWhile_eq_self_of_all_false s.data h,
    dropWhile_eq_self_of_all_false s.data.reverse
      (fun c hc => h c (List.mem_reverse.mp hc)),
    List.reverse_reverse]

theorem data_ne_nil_of_ne_empty (s : String) (h : s ≠ "") : s.data ≠ [] := by
  intro hd
  exact h (String.ext hd)

theorem mem_joinNl_char (c : Char) (l : String) (ls : List String)
    (hl : l ∈ ls) (hc : c ∈ l.data) : c ∈ (joinNl ls).data := by
  induction ls with
  | nil => simp at hl
  | cons a rest ih =>
    cases rest with
    | nil =>
      rcases List.mem_cons.mp hl with rfl | h0
      · exact hc
      · simp at h0
    | cons b t =>
      rw [joinNl_cons a (b :: t) (by simp), String.data_append, String.data_append]
      rcases List.mem_cons.mp hl with rfl | h0
      · exact List.mem_append_left _ (List.mem_append_left _ hc)
      · exact List.mem_append_right _ (ih h0)

theorem charClean_createFromLine (m : EmailMessage) (hm : mboxRoundSafe m) :
    charClean (MboxExporter.createFromLine m) := by
  obtain ⟨_, _, _, _, _, _, haddr, haddrC, _, _, _, hdate, _, _, _, _⟩ := hm
  unfold MboxExporter.createFromLine
  refine charClean_append (charClean_append (charClean_append ?_ ?_) ?_) ?_
  · exact ⟨by decide, by decide⟩
  · unfold jsOrS
    split
    · exact ⟨by decide, by decide⟩
    · exact charClean_of_nonws _ haddrC
  · exact ⟨by decide, by decide⟩
  · exact hdate

theorem charClean_formatAddress (a : EmailAddress)
    (h : charClean a.address ∧ charClean (a.name.getD "")) :
    charClean (MboxExporter.formatAddress a) := by
  unfold MboxExporter.formatAddress
  cases hn : a.name with
  | none => exact h.1
  | some n =>
    have h2 := h.2
    rw [hn] at h2
    show charClean (if n = "" then a.address else "\"" ++ n ++ "\" <" ++ a.address ++ ">")
    split
    · exact h.1
    · refine charClean_append (charClean_append (charClean_append
        (charClean_append ?_ ?_) ?_) ?_) ?_
      · exact ⟨by decide, by decide⟩
      · exact h2
      · exact ⟨by decide, by decide⟩
      · exact h.1
      · exact ⟨by decide, by decide⟩

theorem charClean_buildHeaders (boundary : String) (m : EmailMessage)
    (hm : mboxRoundSafe m) :
    ∀ l ∈ MboxExporter.buildHeaders boundary m, charClean l := by
  obtain ⟨_, hatt, _, hsubC, _, hname, haddr, haddrC, hto, hcc, hid, _, hutc, hhdr, _, _⟩ := hm
  unfold MboxExporter.buildHeaders
  refine List.forall_mem_append.mpr ⟨List.forall_mem_append.mpr
    ⟨List.forall_mem_append.mpr ⟨List.forall_mem_append.mpr ⟨?_, ?_⟩, ?_⟩, ?_⟩, ?_⟩
  · refine List.forall_mem_cons.mpr ⟨?_, List.forall_mem_cons.mpr ⟨?_, (by intro x hx; exact absurd hx (List.not_mem_nil x))⟩⟩
    · refine charClean_append ⟨by decide, by decide⟩ ?_
      rw [MboxExporter.formatAddress_of_no_name m.«from» hname]
      exact charClean_of_nonws _ haddrC
    · refine charClean_append ⟨by decide, by decide⟩ ?_
      refine charClean_commaSpJoin _ ?_
      intro x hx
      rcases List.mem_map.mp hx with ⟨a, ha, rfl⟩
      exact charClean_formatAddress a (hto a ha)
  · cases hccv : m.cc with
    | none =>
      intro x hx
      exact absurd hx (List.not_mem_nil x)
    | some ccl =>
      show ∀ x ∈ (if ccl.length > 0
          then ["Cc: " ++ commaSpJoin (List.map MboxExporter.formatAddress ccl)] else []),
        charClean x
      by_cases hlen : ccl.length > 0
      · rw [if_pos hlen]
        refine List.forall_mem_cons.mpr ⟨?_, by intro x hx; exact absurd hx (List.not_mem_nil x)⟩
        refine charClean_append ⟨by decide, by decide⟩ ?_
        refine charClean_commaSpJoin _ ?_
        intro x hx
        rcases List.mem_map.mp hx with ⟨a, ha, rfl⟩
        exact charClean_formatAddress a (hcc a (by rw [hccv]; exact ha))
      · rw [if_neg hlen]
        intro x hx
        exact absurd hx (List.not_mem_nil x)
  · refine List.forall_mem_cons.mpr ⟨?_, List.forall_mem_cons.mpr
      ⟨?_, List.forall_mem_cons.mpr ⟨?_, (by intro x hx; exact absurd hx (List.not_mem_nil x))⟩⟩⟩
    · exact charClean_append ⟨by decide, by decide⟩ hsubC
    · exact charClean_append ⟨by decide, by decide⟩ hutc
    · exact charClean_append ⟨by decide, by decide⟩ hid
  · refine List.forall_mem_cons.mpr ⟨?_, (by intro x hx; exact absurd hx (List.not_mem_nil x))⟩
    rw [hatt]
    simp only [List.length_nil, gt_iff_lt, Nat.lt_irrefl, if_false]
    split
    · exact ⟨by decide, by decide⟩
    · exact ⟨by decide, by decide⟩
  · intro x hx
    rcases List.mem_map.mp hx with ⟨kv, hkv, rfl⟩
    have hk := hhdr kv (List.mem_of_mem_filter hkv)
    exact charClean_append (charClean_append hk.2.2.1 ⟨by decide, by decide⟩) hk.2.2.2

theorem esc_id_of_not_from (l : String)
    (h : beginsWith "From ".data l.data = false) :
    MboxExporter.escapeLine l = l := by
  unfold MboxExporter.escapeLine
  rw [if_neg (by simp [h])]

theorem lineEntries (l : String) (K R : List Char) (hl : l.data = K ++ ':' :: R)
    (hK : ':' ∉ K) (hKne : K ≠ [])
    (hesc : beginsWith "From ".data l.data = false) :
    List.filterMap MboxImporter.matchHeader [MboxExporter.escapeLine l] = [] ∨
    ∃ v, List.filterMap MboxImporter.matchHeader [MboxExporter.escapeLine l]
      = [(String.mk K, v)] := by
  rw [esc_id_of_not_from l hesc]
  rcases MboxImporter.matchHeader_key l K R hl hK hKne with h | ⟨v, h⟩
  · left
    simp [List.filterMap_cons, h]
  · right
    exact ⟨v, by simp [List.filterMap_cons, h]⟩

theorem extra_entries_keys (m : EmailMessage)
    (hhdr : ∀ kv ∈ m.headers, kv.1 ≠ "" ∧ ':' ∉ kv.1.data ∧ charClean kv.1 ∧ charClean kv.2.render) :
    ∀ e ∈ List.filterMap MboxImporter.matchHeader
        (((m.headers.filter
            (fun kv => !(MboxExporter.knownHeaderKeys.contains (asciiLower kv.1)))).map
          (fun kv => kv.1 ++ ": " ++ kv.2.render)).map MboxExporter.escapeLine),
      e.1 ≠ "Subject" ∧ e.1 ≠ "From" := by
  intro e he
  rcases List.mem_filterMap.mp he with ⟨l, hl, hml⟩
  rcases List.mem_map.mp hl with ⟨l0, hl0, rfl⟩
  rcases List.mem_map.mp hl0 with ⟨kv, hkv, rfl⟩
  have hfilter := List.mem_filter.mp hkv
  have hknown : (MboxExporter.knownHeaderKeys.contains (asciiLower kv.1)) = false := by
    have h2 := hfilter.2
    simpa using h2
  have hconds := hhdr kv hfilter.1
  have hldata : (kv.1 ++ ": " ++ kv.2.render).data
      = kv.1.data ++ ':' :: (' ' :: kv.2.render.data) := by
    simp [String.data_append]
  have hsubj : kv.1 ≠ "Subject" := by
    intro hEq
    rw [hEq] at hknown
    have hx : MboxExporter.knownHeaderKeys.contains (asciiLower "Subject") = true := by decide
    rw [hx] at hknown
    exact Bool.noConfusion hknown
  have hfrom : kv.1 ≠ "From" := by
    intro hEq
    rw [hEq] at hknown
    have hx : MboxExporter.knownHeaderKeys.contains (asciiLower "From") = true := by decide
    rw [hx] at hknown
    exact Bool.noConfusion hknown
  by_cases hescb : beginsWith "From ".data (kv.1 ++ ": " ++ kv.2.render).data = true
  · unfold MboxExporter.escapeLine at hml
    rw [if_pos hescb] at hml
    have hdata2 : (">" ++ (kv.1 ++ ": " ++ kv.2.render)).data
        = ('>' :: kv.1.data) ++ ':' :: (' ' :: kv.2.render.data) := by
      rw [String.data_append, hldata]
      rfl
    rcases MboxImporter.matchHeader_key _ _ _ hdata2
        (by
          intro hc
          rcases List.mem_cons.mp hc with hc | hc
          · exact absurd hc.symm (by decide)
          · exact hconds.2.1 hc)
        (by simp) with hnone | ⟨v, hv⟩
    · rw [hnone] at hml
      exact absurd hml (by simp)
    · rw [hv] at hml
      have he2 : e = (String.mk ('>' :: kv.1.data), v) := by
        injection hml with h1
        exact h1.symm
      subst he2
      constructor
      · intro hEq
        have hd := congrArg String.data hEq
        simp [show ("Subject" : String).data = ['S','u','b','j','e','c','t'] from rfl] at hd
      · intro hEq
        have hd := congrArg String.data hEq
        simp [show ("From" : String).data = ['F','r','o','m'] from rfl] at hd
  · unfold MboxExporter.escapeLine at hml
    rw [if_neg hescb] at hml
    rcases MboxImporter.matchHeader_key _ _ _ hldata hconds.2.1
        (data_ne_nil_of_ne_empty _ hconds.1) with hnone | ⟨v, hv⟩
    · rw [hnone] at hml
      exact absurd hml (by simp)
    · rw [hv] at hml
      have he2 : e = (kv.1, v) := by
        injection hml with h1
        exact h1.symm
      subst he2
      exact ⟨hsubj, hfrom⟩

end Backupmail

namespace Backupmail

theorem entries_key_of_shape (l : String) (K R : List Char) (hl : l.data = K ++ ':' :: R)
    (hK : ':' ∉ K) (hKne : K ≠ [])
    (hesc : beginsWith "From ".data l.data = false) :
    ∀ e ∈ List.filterMap MboxImporter.matchHeader [MboxExporter.escapeLine l],
      e.1 = String.mk K := by
  rcases lineEntries l K R hl hK hKne hesc with h | ⟨v, h⟩ <;> rw [h]
  · intro e he
    exact absurd he (List.not_mem_nil e)
  · intro e he
    rcases List.mem_cons.mp he with rfl | he
    · rfl
    · exact absurd he (List.not_mem_nil e)

theorem seg1_entries (m : EmailMessage) (hname : m.«from».name = none)
    (haddr : m.«from».address ≠ "")
    (haddrC : ∀ c ∈ m.«from».address.data, jsWs c = false ∧ c ≠ '<') (ts : String) :
    ∃ t, List.filterMap MboxImporter.matchHeader
        ((["From: " ++ MboxExporter.formatAddress m.«from», "To: " ++ ts]).map
          MboxExporter.escapeLine)
      = ("From", m.«from».address) :: t ∧ ∀ e ∈ t, e.1 = "To" := by
  rw [MboxExporter.formatAddress_of_no_name m.«from» hname]
  have hFromLine : MboxImporter.matchHeader ("From: " ++ m.«from».address)
      = some ("From", m.«from».address) :=
    MboxImporter.matchHeader_of_data ("From: " ++ m.«from».address)
      ['F', 'r', 'o', 'm'] m.«from».address.data rfl (by decide) (by decide)
      (dropWhile_eq_self_of_all_false _ (fun c hc => (haddrC c hc).1))
      (data_ne_nil_of_ne_empty _ haddr)
  have hescFrom : MboxExporter.escapeLine ("From: " ++ m.«from».address)
      = "From: " ++ m.«from».address := esc_id_of_not_from _ rfl
  have hescTo : MboxExporter.escapeLine ("To: " ++ ts) = "To: " ++ ts :=
    esc_id_of_not_from _ rfl
  refine ⟨List.filterMap MboxImporter.matchHeader [MboxExporter.escapeLine ("To: " ++ ts)], ?_, ?_⟩
  · rw [List.map_cons, List.map_cons, List.map_nil, hescFrom]
    rw [List.filterMap_cons, hFromLine, hescTo]
  · exact entries_key_of_shape ("To: " ++ ts) ['T', 'o'] (' ' :: ts.data) rfl
      (by decide) (by decide) rfl

theorem seg3_entries (m : EmailMessage) (hsub : m.subject ≠ "")
    (hsubW : m.subject.data.dropWhile jsWs = m.subject.data) :
    ∃ t, List.filterMap MboxImporter.matchHeader
        ((["Subject: " ++ m.subject, "Date: " ++ m.date.toUTCStringRepr,
           "Message-ID: " ++ m.id]).map MboxExporter.escapeLine)
      = ("Subject", m.subject) :: t ∧
      ∀ e ∈ t, e.1 = "Date" ∨ e.1 = "Message-ID" := by
  have hSubjLine : MboxImporter.matchHeader ("Subject: " ++ m.subject)
      = some ("Subject", m.subject) :=
    MboxImporter.matchHeader_of_data ("Subject: " ++ m.subject)
      ['S', 'u', 'b', 'j', 'e', 'c', 't'] m.subject.data rfl (by decide) (by decide)
      hsubW (data_ne_nil_of_ne_empty _ hsub)
  have hescS : MboxExporter.escapeLine ("Subject: " ++ m.subject)
      = "Subject: " ++ m.subject := esc_id_of_not_from _ rfl
  refine ⟨List.filterMap MboxImporter.matchHeader
      [MboxExporter.escapeLine ("Date: " ++ m.date.toUTCStringRepr)] ++
    List.filterMap MboxImporter.matchHeader
      [MboxExporter.escapeLine ("Message-ID: " ++ m.id)], ?_, ?_⟩
  · rw [show (["Subject: " ++ m.subject, "Date: " ++ m.date.toUTCStringRepr,
        "Message-ID: " ++ m.id] : List String)
        = ["Subject: " ++ m.subject] ++ ["Date: " ++ m.date.toUTCStringRepr] ++
          ["Message-ID: " ++ m.id] from rfl]
    rw [List.map_append, List.map_append, List.filterMap_append, List.filterMap_append]
    rw [List.map_cons, List.map_nil, hescS, List.filterMap_cons, hSubjLine]
    rfl
  · intro e he
    rcases List.mem_append.mp he with he | he
    · exact Or.inl (entries_key_of_shape ("Date: " ++ m.date.toUTCStringRepr)
        ['D', 'a', 't', 'e'] (' ' :: m.date.toUTCStringRepr.data) rfl (by decide)
        (by decide) rfl e he)
    · exact Or.inr (entries_key_of_shape ("Message-ID: " ++ m.id)
        ['M', 'e', 's', 's', 'a', 'g', 'e', '-', 'I', 'D'] (' ' :: m.id.data) rfl
        (by decide) (by decide) rfl e he)

theorem segCC_entries (m : EmailMessage) :
    ∀ e ∈ List.filterMap MboxImporter.matchHeader
        ((match m.cc with
          | some cc =>
            if cc.length > 0
            then ["Cc: " ++ commaSpJoin (cc.map MboxExporter.formatAddress)] else []
          | none => ([] : List String)).map MboxExporter.escapeLine),
      e.1 = "Cc" := by
  cases m.cc with
  | none =>
    intro e he
    exact absurd he (by simp)
  | some ccl =>
    show ∀ e ∈ List.filterMap MboxImporter.matchHeader
        ((if ccl.length > 0
          then ["Cc: " ++ commaSpJoin (ccl.map MboxExporter.formatAddress)]
          else []).map MboxExporter.escapeLine), e.1 = "Cc"
    by_cases hlen : ccl.length > 0
    · rw [if_pos hlen]
      exact entries_key_of_shape _ ['C', 'c']
        (' ' :: (commaSpJoin (ccl.map MboxExporter.formatAddress)).data) rfl
        (by decide) (by decide) rfl
    · rw [if_neg hlen]
      intro e he
      exact absurd he (by simp)

theorem segCT_entries (boundary : String) (m : EmailMessage) (hatt : m.attachments = []) :
    ∀ e ∈ List.filterMap MboxImporter.matchHeader
        (([if m.attachments.length > 0 then
             "Content-Type: multipart/mixed; boundary=\"" ++ boundary ++ "\""
           else if optTruthy m.html then "Content-Type: text/html; charset=utf-8"
           else "Content-Type: text/plain; charset=utf-8"]).map MboxExporter.escapeLine),
      e.1 = "Content-Type" := by
  rw [hatt]
  simp only [List.length_nil, gt_iff_lt, Nat.lt_irrefl, if_false]
  by_cases hh : optTruthy m.html
  · rw [if_pos hh]
    intro e he
    simp only [List.map_cons, List.map_nil] at he
    rcases List.mem_filterMap.mp he with ⟨l, hl, hml⟩
    rcases List.mem_cons.mp hl with rfl | hl
    · rw [show MboxExporter.escapeLine "Content-Type: text/html; charset=utf-8"
          = "Content-Type: text/html; charset=utf-8" from rfl] at hml
      rw [show MboxImporter.matchHeader "Content-Type: text/html; charset=utf-8"
          = some ("Content-Type", "text/html; charset=utf-8") from by decide] at hml
      injection hml with h1
      rw [← h1]
    · exact absurd hl (List.not_mem_nil l)
  · rw [if_neg hh]
    intro e he
    simp only [List.map_cons, List.map_nil] at he
    rcases List.mem_filterMap.mp he with ⟨l, hl, hml⟩
    rcases List.mem_cons.mp hl with rfl | hl
    · rw [show MboxExporter.escapeLine "Content-Type: text/plain; charset=utf-8"
          = "Content-Type: text/plain; charset=utf-8" from rfl] at hml
      rw [show MboxImporter.matchHeader "Content-Type: text/plain; charset=utf-8"
          = some ("Content-Type", "text/plain; charset=utf-8") from by decide] at hml
      injection hml with h1
      rw [← h1]
    · exact absurd hl (List.not_mem_nil l)

end Backupmail

namespace Backupmail

theorem recGet_append_none (A B : List (String × String)) (k : String)
    (h : recGet B k = none) : recGet (A ++ B) k = recGet A k := by
  rw [recGet_append, h]

theorem recGet_append_some (A B : List (String × String)) (k v : String)
    (h : recGet B k = some v) : recGet (A ++ B) k = some v := by
  rw [recGet_append, h]

theorem recGet_head (L2 : List (String × String)) (k v : String)
    (h2 : ∀ e ∈ L2, e.1 ≠ k) : recGet ((k, v) :: L2) k = some v := by
  have h := recGet_last [] L2 k v h2
  simpa using h

/-- The headers record built by the importer from one exported entry's
(escaped) header lines resolves `Subject` and `From` to the original
message's subject and sender address. -/
theorem headers_record (boundary : String) (m : EmailMessage) (hm : mboxRoundSafe m) :
    recGet (List.filterMap MboxImporter.matchHeader
        ((MboxExporter.buildHeaders boundary m).map MboxExporter.escapeLine)) "Subject"
      = some m.subject ∧
    recGet (List.filterMap MboxImporter.matchHeader
        ((MboxExporter.buildHeaders boundary m).map MboxExporter.escapeLine)) "From"
      = some m.«from».address := by
  obtain ⟨hraw, hatt, hsub, hsubC, hsubW, hname, haddr, haddrC, hto, hcc, hid,
    hdateS, hutc, hhdr, hbodyR, hbody⟩ := hm
  obtain ⟨t1, ht1, ht1k⟩ := seg1_entries m hname haddr haddrC
    (commaSpJoin (m.«to».map MboxExporter.formatAddress))
  obtain ⟨t3, ht3, ht3k⟩ := seg3_entries m hsub hsubW
  have hCC := segCC_entries m
  have hCT := segCT_entries boundary m hatt
  have hEX := extra_entries_keys m hhdr
  constructor
  · simp only [MboxExporter.buildHeaders, List.map_append, List.filterMap_append]
    rw [recGet_append_none _ _ _
      (recGet_none_of_keys _ _ (fun e he => (hEX e he).1))]
    rw [recGet_append_none _ _ _
      (recGet_none_of_keys _ _ (fun e he => by rw [hCT e he]; decide))]
    apply recGet_append_some
    rw [ht3]
    exact recGet_head t3 _ _ (fun e he => by
      rcases ht3k e he with h | h <;> (rw [h]; decide))
  · simp only [MboxExporter.buildHeaders, List.map_append, List.filterMap_append]
    rw [recGet_append_none _ _ _
      (recGet_none_of_keys _ _ (fun e he => (hEX e he).2))]
    rw [recGet_append_none _ _ _
      (recGet_none_of_keys _ _ (fun e he => by rw [hCT e he]; decide))]
    rw [recGet_append_none _ _ _
      (recGet_none_of_keys _ _ (fun e he => by
        rw [ht3] at he
        rcases List.mem_cons.mp he with rfl | he
        · exact fun hx => (by decide : ("Subject" : String) ≠ "From") hx
        · rcases ht3k e he with h | h <;> (rw [h]; decide)))]
    rw [recGet_append_none _ _ _
      (recGet_none_of_keys _ _ (fun e he => by rw [hCC e he]; decide))]
    rw [ht1]
    exact recGet_head t1 _ _ (fun e he => by rw [ht1k e he]; decide)

end Backupmail

namespace Backupmail.MboxImporter

theorem mem_quoteOpts_sub (cs r : List Char) (hr : r ∈ quoteOpts cs) :
    ∀ x ∈ r, x ∈ cs := by
  unfold quoteOpts at hr
  split at hr
  · rename_i rest
    rcases List.mem_cons.mp hr with rfl | hr
    · exact fun x hx => List.mem_cons_of_mem _ hx
    · rcases List.mem_cons.mp hr with rfl | hr
      · exact fun x hx => hx
      · exact absurd hr (List.not_mem_nil r)
  · rcases List.mem_cons.mp hr with rfl | hr
    · exact fun x hx => hx
    · exact absurd hr (List.not_mem_nil r)

theorem tryAfterName_none (cs : List Char) (h : '<' ∉ cs) : tryAfterName cs = none := by
  unfold tryAfterName
  rw [List.findSome?_eq_none_iff]
  intro r1 hr1
  rw [List.findSome?_eq_none_iff]
  intro r2 hr2
  have hsub1 := mem_quoteOpts_sub cs r1 hr1
  have hsub2 : ∀ x ∈ r2, x ∈ r1 := by
    unfold wsOpts at hr2
    rcases List.mem_map.mp hr2 with ⟨j, _, rfl⟩
    exact fun x hx => List.mem_of_mem_drop hx
  show (match r2 with
    | '<' :: r3 => capAngle r3
    | _ => none) = none
  split
  · exfalso
    exact h (hsub1 '<' (hsub2 '<' (List.mem_cons_self _ _)))
  · rfl

theorem tryAt_none (cs : List Char) (h : '<' ∉ cs) : tryAt cs = none := by
  unfold tryAt
  rw [List.findSome?_eq_none_iff]
  intro afterQ hq
  rw [List.findSome?_eq_none_iff]
  intro k _
  rw [tryAfterName_none _ (fun hm => h (mem_quoteOpts_sub cs afterQ hq '<'
    (List.mem_of_mem_drop hm)))]
  rfl

theorem findAddrMatch_none (cs : List Char) (h : '<' ∉ cs) :
    findAddrMatch cs = none := by
  induction cs with
  | nil => rfl
  | cons c cs ih =>
    unfold findAddrMatch
    rw [tryAt_none (c :: cs) h, ih (fun hm => h (List.mem_cons_of_mem c hm))]

theorem parseAddress_plain (addr : String) (h1 : '<' ∉ addr.data)
    (h2 : ∀ c ∈ addr.data, jsWs c = false) :
    parseAddress addr = ⟨none, addr⟩ := by
  unfold parseAddress
  rw [findAddrMatch_none addr.data h1, jsTrim_eq_self addr h2]

end Backupmail.MboxImporter

namespace Backupmail

theorem charClean_restLine (m : EmailMessage) (hm : mboxRoundSafe m) :
    charClean (restLine m) := by
  obtain ⟨_, _, _, _, _, _, haddr, haddrC, _, _, _, hdate, _, _, _, _⟩ := hm
  unfold restLine
  refine charClean_append (charClean_append ?_ ?_) ?_
  · unfold jsOrS
    split
    · exact ⟨by decide, by decide⟩
    · exact charClean_of_nonws _ haddrC
  · exact ⟨by decide, by decide⟩
  · exact hdate

theorem buildHeaders_colon (boundary : String) (m : EmailMessage) :
    ∀ l ∈ MboxExporter.buildHeaders boundary m, ':' ∈ l.data := by
  unfold MboxExporter.buildHeaders
  refine List.forall_mem_append.mpr ⟨List.forall_mem_append.mpr
    ⟨List.forall_mem_append.mpr ⟨List.forall_mem_append.mpr ⟨?_, ?_⟩, ?_⟩, ?_⟩, ?_⟩
  · refine List.forall_mem_cons.mpr ⟨?_, List.forall_mem_cons.mpr
      ⟨?_, by intro x hx; exact absurd hx (List.not_mem_nil x)⟩⟩
    · rw [String.data_append]
      exact List.mem_append_left _ (by decide)
    · rw [String.data_append]
      exact List.mem_append_left _ (by decide)
  · cases m.cc with
    | none =>
      intro x hx
      exact absurd hx (List.not_mem_nil x)
    | some ccl =>
      show ∀ x ∈ (if ccl.length > 0
          then ["Cc: " ++ commaSpJoin (List.map MboxExporter.formatAddress ccl)] else []),
        ':' ∈ x.data
      by_cases hlen : ccl.length > 0
      · rw [if_pos hlen]
        refine List.forall_mem_cons.mpr
          ⟨?_, by intro x hx; exact absurd hx (List.not_mem_nil x)⟩
        rw [String.data_append]
        exact List.mem_append_left _ (by decide)
      · rw [if_neg hlen]
        intro x hx
        exact absurd hx (List.not_mem_nil x)
  · refine List.forall_mem_cons.mpr ⟨?_, List.forall_mem_cons.mpr
      ⟨?_, List.forall_mem_cons.mpr
        ⟨?_, by intro x hx; exact absurd hx (List.not_mem_nil x)⟩⟩⟩ <;>
      (rw [String.data_append]; exact List.mem_append_left _ (by decide))
  · refine List.forall_mem_cons.mpr
      ⟨?_, by intro x hx; exact absurd hx (List.not_mem_nil x)⟩
    split
    · rw [String.data_append, String.data_append]
      exact List.mem_append_left _ (List.mem_append_left _ (by decide))
    · split
      · decide
      · decide
  · intro x hx
    rcases List.mem_map.mp hx with ⟨kv, _, rfl⟩
    rw [String.data_append, String.data_append]
    exact List.mem_append_left _ (List.mem_append_right _ (by decide))

theorem colon_mem_esc (l : String) (h : ':' ∈ l.data) :
    ':' ∈ (MboxExporter.escapeLine l).data := by
  unfold MboxExporter.escapeLine
  split
  · rw [String.data_append]
    exact List.mem_append_right _ h
  · exact h

theorem colon_not_mem_esc (l : String) (h : ':' ∉ l.data) :
    ':' ∉ (MboxExporter.escapeLine l).data := by
  unfold MboxExporter.escapeLine
  split
  · rw [String.data_append]
    intro hx
    rcases List.mem_append.mp hx with hx | hx
    · simp [show ((">" : String)).data = ['>'] from rfl] at hx
    · exact h hx
  · exact h

end Backupmail

namespace Backupmail

theorem jsOrStr_some_ne (s d : String) (h : s ≠ "") : jsOrStr (some s) d = s := by
  show (if s = "" then d else s) = s
  rw [if_neg h]

theorem parse_segOf (boundary : String) (m : EmailMessage) (hm : mboxRoundSafe m)
    (uid : Nat) :
    (MboxImporter.parseMessage (MboxImporter.dropEnvelope (segOf boundary m)) uid).subject
        = m.subject ∧
    (MboxImporter.parseMessage
        (MboxImporter.dropEnvelope (segOf boundary m)) uid).«from».address
        = m.«from».address := by
  have hmKeep := hm
  obtain ⟨hraw, hatt, hsub, hsubC, hsubW, hname, haddr, haddrC, hto, hcc, hid,
    hdateS, hutc, hhdr, hbodyR, hbody⟩ := hm
  have hrest : '\n' ∉ (restLine m).data := (charClean_restLine m hmKeep).1
  have hmid : ∀ l ∈ entryMid boundary m, '\n' ∉ l.data := by
    intro l hl
    unfold entryMid at hl
    rcases List.mem_append.mp hl with hl | hl
    · rcases List.mem_map.mp hl with ⟨l0, hl0, rfl⟩
      exact MboxExporter.no_nl_escapeLine l0 (mem_splitNl_no_nl _ l0 hl0)
    · rcases List.mem_cons.mp hl with rfl | hl
      · decide
      · exact absurd hl (List.not_mem_nil l)
  have hsegLines : splitNl (segOf boundary m)
      = restLine m :: (entryMid boundary m ++ [""]) := by
    unfold segOf
    apply splitNl_joinNl
    · intro l hl
      rcases List.mem_cons.mp hl with rfl | hl
      · exact hrest
      · rcases List.mem_append.mp hl with hl | hl
        · exact hmid l hl
        · rcases List.mem_cons.mp hl with rfl | hl
          · decide
          · exact absurd hl (List.not_mem_nil l)
    · simp
  have hdropEnv : MboxImporter.dropEnvelope (segOf boundary m)
      = joinNl (entryMid boundary m ++ [""]) := by
    unfold MboxImporter.dropEnvelope
    rw [hsegLines]
    cases hx : entryMid boundary m ++ [""] with
    | nil => exact absurd hx (by simp)
    | cons b t => rfl
  have hcontent : splitNl (MboxExporter.messageContent boundary m)
      = (MboxExporter.buildHeaders boundary m ++ [""])
        ++ splitNl (jsOrStr m.html (jsOrStr m.text "")) := by
    unfold MboxExporter.messageContent
    rw [hraw]
    unfold MboxExporter.reconstructRawMessage
    rw [hatt]
    simp only [List.length_nil, gt_iff_lt, Nat.lt_irrefl, if_false]
    have hA : ∀ l ∈ MboxExporter.buildHeaders boundary m ++ [""], '\n' ∉ l.data := by
      refine List.forall_mem_append.mpr ⟨?_, ?_⟩
      · exact fun l hl => (charClean_buildHeaders boundary m hmKeep l hl).1
      · intro l hl
        rcases List.mem_cons.mp hl with rfl | hl
        · decide
        · exact absurd hl (List.not_mem_nil l)
    have hstep := splitNl_joinNl_last (MboxExporter.buildHeaders boundary m ++ [""])
      (jsOrStr m.html (jsOrStr m.text "")) hA
    rw [show MboxExporter.buildHeaders boundary m ++ [""]
          ++ [jsOrStr m.html (jsOrStr m.text "")]
        = (MboxExporter.buildHeaders boundary m ++ [""])
          ++ [jsOrStr m.html (jsOrStr m.text "")] from by simp [List.append_assoc]]
    exact hstep
  have hlines : splitNl (joinNl (entryMid boundary m ++ [""]))
      = entryMid boundary m ++ [""] := by
    apply splitNl_joinNl
    · intro l hl
      rcases List.mem_append.mp hl with hl | hl
      · exact hmid l hl
      · rcases List.mem_cons.mp hl with rfl | hl
        · decide
        · exact absurd hl (List.not_mem_nil l)
    · simp
  have hshape : entryMid boundary m ++ [""]
      = ((MboxExporter.buildHeaders boundary m).map MboxExporter.escapeLine)
        ++ ("" :: ((splitNl (jsOrStr m.html (jsOrStr m.text ""))).map
              MboxExporter.escapeLine ++ ["", ""])) := by
    unfold entryMid
    rw [hcontent, List.map_append, List.map_append]
    simp [MboxExporter.escapeLine_empty, List.append_assoc]
  have hscan : (MboxImporter.scanHeaders (entryMid boundary m ++ [""]) 0 []).1
      = List.filterMap MboxImporter.matchHeader
          ((MboxExporter.buildHeaders boundary m).map MboxExporter.escapeLine) := by
    rw [MboxImporter.scanHeaders_fst, hshape]
    rw [MboxImporter.collectH_append_colon _ _ (fun l hl => by
      rcases List.mem_map.mp hl with ⟨l0, hl0, rfl⟩
      exact colon_mem_esc l0 (buildHeaders_colon boundary m l0 hl0))]
    rw [MboxImporter.collectH_nil_of_none _ (fun l hl => by
      rcases List.mem_cons.mp hl with rfl | hl
      · rfl
      · rcases List.mem_append.mp hl with hl | hl
        · rcases List.mem_map.mp hl with ⟨l0, hl0, rfl⟩
          exact MboxImporter.matchHeader_none_of_no_colon _
            (colon_not_mem_esc l0 (hbody l0 hl0))
        · rcases List.mem_cons.mp hl with rfl | hl
          · rfl
          · rcases List.mem_cons.mp hl with rfl | hl
            · rfl
            · exact absurd hl (List.not_mem_nil l))]
    simp
  have hrec := headers_record boundary m hmKeep
  constructor
  · rw [hdropEnv]
    show jsOrStr (recGet (MboxImporter.scanHeaders
        (splitNl (joinNl (entryMid boundary m ++ [""]))) 0 []).1 "Subject")
      "(No Subject)" = m.subject
    rw [hlines, hscan, hrec.1]
    exact jsOrStr_some_ne _ _ hsub
  · rw [hdropEnv]
    show (MboxImporter.parseAddress (jsOrStr (recGet (MboxImporter.scanHeaders
        (splitNl (joinNl (entryMid boundary m ++ [""]))) 0 []).1 "From")
      "unknown")).address = m.«from».address
    rw [hlines, hscan, hrec.2]
    rw [jsOrStr_some_ne _ _ haddr, MboxImporter.parseAddress_plain m.«from».address
      (fun hmem => (haddrC '<' hmem).2 rfl)
      (fun c hc => (haddrC c hc).1)]

end Backupmail

namespace Backupmail

theorem createFromLine_eq (m : EmailMessage) :
    MboxExporter.createFromLine m = "From " ++ restLine m := by
  apply String.ext
  unfold MboxExporter.createFromLine restLine
  simp [String.data_append, List.append_assoc]

theorem envelope_from (m : EmailMessage) :
    beginsWith "From ".data (MboxExporter.createFromLine m).data = true := by
  rw [createFromLine_eq, String.data_append]
  exact beginsWith_self_append _ _

theorem envelope_drop (m : EmailMessage) :
    String.mk ((MboxExporter.createFromLine m).data.drop 5) = restLine m := by
  rw [createFromLine_eq, String.data_append]
  rw [show (5 : Nat) = ("From " : String).data.length from rfl]
  rw [List.drop_left]

theorem entryMid_not_from (boundary : String) (m : EmailMessage) :
    ∀ l ∈ entryMid boundary m, beginsWith "From ".data l.data = false := by
  intro l hl
  unfold entryMid at hl
  rcases List.mem_append.mp hl with hl | hl
  · rcases List.mem_map.mp hl with ⟨l0, _, rfl⟩
    exact MboxExporter.escapeLine_not_from l0
  · rcases List.mem_cons.mp hl with rfl | hl
    · rfl
    · exact absurd hl (List.not_mem_nil l)

theorem segsAux_messages (boundary : String) :
    ∀ (ms : List EmailMessage) (cur : List String),
      MboxImporter.segsAux cur
          (ms.flatMap (fun m => MboxExporter.createFromLine m :: entryMid boundary m) ++ [""])
        = joinNl (cur ++ [""]) :: ms.map (segOf boundary) := by
  intro ms
  induction ms with
  | nil =>
    intro cur
    rw [List.flatMap_nil, List.nil_append]
    rw [show ([""] : List String) = [""] ++ [] from by simp]
    rw [MboxImporter.segsAux_skip [""] (by
      intro l hl
      rcases List.mem_cons.mp hl with rfl | hl
      · rfl
      · exact absurd hl (List.not_mem_nil l)) cur []]
    rfl
  | cons m ms ih =>
    intro cur
    rw [List.flatMap_cons]
    rw [show (MboxExporter.createFromLine m :: entryMid boundary m)
          ++ ms.flatMap (fun m => MboxExporter.createFromLine m :: entryMid boundary m) ++ [""]
        = MboxExporter.createFromLine m :: (entryMid boundary m
          ++ (ms.flatMap (fun m => MboxExporter.createFromLine m :: entryMid boundary m) ++ [""]))
       from by simp [List.append_assoc]]
    simp only [MboxImporter.segsAux]
    rw [if_pos (envelope_from m)]
    rw [envelope_drop m]
    rw [MboxImporter.segsAux_skip (entryMid boundary m) (entryMid_not_from boundary m)
      [restLine m] _]
    rw [ih ([restLine m] ++ entryMid boundary m)]
    rw [show ([restLine m] ++ entryMid boundary m) ++ [""]
        = restLine m :: (entryMid boundary m ++ [""]) from by simp]
    rfl

theorem coreLines_eq (boundary : String) (m : EmailMessage) (hm : mboxRoundSafe m) :
    MboxExporter.coreLines boundary m
      = MboxExporter.createFromLine m :: entryMid boundary m := by
  unfold MboxExporter.coreLines entryMid
  rw [splitNl_of_no_nl (MboxExporter.createFromLine m) (charClean_createFromLine m hm).1]
  simp

theorem mboxSplit_messages (boundary : String) (ms : List EmailMessage)
    (h : ∀ m ∈ ms, mboxRoundSafe m) :
    MboxImporter.mboxSplit (MboxExporter.messagesToMbox boundary ms)
      = "" :: ms.map (segOf boundary) := by
  unfold MboxImporter.mboxSplit
  rw [MboxExporter.mbox_lines]
  have hflat : ms.flatMap (MboxExporter.coreLines boundary)
      = ms.flatMap (fun m => MboxExporter.createFromLine m :: entryMid boundary m) := by
    induction ms with
    | nil => rfl
    | cons m ms ih =>
      rw [List.flatMap_cons, List.flatMap_cons, coreLines_eq boundary m (h m (by simp)),
        ih (fun x hx => h x (by simp [hx]))]
  rw [hflat, segsAux_messages boundary ms []]
  rfl

end Backupmail

namespace Backupmail

theorem segOf_trim_ne (boundary : String) (m : EmailMessage) (hm : mboxRoundSafe m) :
    jsTrim (segOf boundary m) ≠ "" := by
  obtain ⟨_, _, _, _, _, _, haddr, haddrC, _, _, _, _, _, _, _, _⟩ := hm
  cases hd : m.«from».address.data with
  | nil => exact absurd (String.ext hd) haddr
  | cons c cs =>
    intro htrim
    have hcw : jsWs c = false :=
      (haddrC c (by rw [hd]; exact List.mem_cons_self c cs)).1
    have hcmem : c ∈ (restLine m).data := by
      unfold restLine
      rw [String.data_append, String.data_append]
      apply List.mem_append_left
      apply List.mem_append_left
      unfold jsOrS
      rw [if_neg haddr, hd]
      exact List.mem_cons_self c cs
    have hcseg : c ∈ (segOf boundary m).data := by
      unfold segOf
      exact mem_joinNl_char c (restLine m) _ (List.mem_cons_self _ _) hcmem
    have := jsTrim_eq_empty (segOf boundary m) htrim c hcseg
    rw [hcw] at this
    exact Bool.noConfusion this

theorem entries_messages (boundary : String) (ms : List EmailMessage)
    (h : ∀ m ∈ ms, mboxRoundSafe m) :
    (MboxImporter.mboxSplit (MboxExporter.messagesToMbox boundary ms)).filter
        (fun e => jsTrim e ≠ "")
      = ms.map (segOf boundary) := by
  rw [mboxSplit_messages boundary ms h]
  rw [List.filter_cons]
  rw [if_neg (by simp [show jsTrim "" = "" from rfl])]
  apply List.filter_eq_self.mpr
  intro e he
  rcases List.mem_map.mp he with ⟨m, hmem, rfl⟩
  exact decide_eq_true (segOf_trim_ne boundary m (h m hmem))

theorem parse_enum_proj (boundary : String) :
    ∀ (ms : List EmailMessage) (n : Nat), (∀ m ∈ ms, mboxRoundSafe m) →
      ((((ms.map (segOf boundary)).enumFrom n).map
          (fun p => MboxImporter.parseMessage (MboxImporter.dropEnvelope p.2) (p.1 + 1))).map
        (fun mm => (mm.subject, mm.«from».address)))
      = ms.map (fun m => (m.subject, m.«from».address)) := by
  intro ms
  induction ms with
  | nil => intro n _; rfl
  | cons m ms ih =>
    intro n h
    rw [List.map_cons, List.enumFrom_cons, List.map_cons, List.map_cons]
    have hp := parse_segOf boundary m (h m (by simp)) (n + 1)
    rw [show (MboxImporter.parseMessage
          (MboxImporter.dropEnvelope (segOf boundary m)) (n + 1)).subject = m.subject
        from hp.1,
      show (MboxImporter.parseMessage
          (MboxImporter.dropEnvelope (segOf boundary m)) (n + 1)).«from».address
        = m.«from».address from hp.2]
    rw [ih (n + 1) (fun x hx => h x (by simp [hx]))]
    rfl

/-- C2 (amended): for every sequence of messages that are safe for the MBOX
round trip — no raw override, no attachments, line-safe subject/sender/header
fields, sender address free of `<` and whitespace, and no colon in any body
line (the importer's header scan runs past the blank separator, so a
colon-bearing body line becomes a header assignment) — importing the export
yields exactly as many messages, and subject and sender address survive
positionally.  Distinct subjects or senders are not required. -/
theorem mbox_round_trip (boundary : String) (ms : List EmailMessage)
    (h : ∀ m ∈ ms, mboxRoundSafe m) :
    (MboxImporter.parseMbox (MboxExporter.messagesToMbox boundary ms)).length
        = ms.length ∧
    (MboxImporter.parseMbox (MboxExporter.messagesToMbox boundary ms)).map
        (fun mm => (mm.subject, mm.«from».address))
      = ms.map (fun m => (m.subject, m.«from».address)) := by
  have hproj : (MboxImporter.parseMbox (MboxExporter.messagesToMbox boundary ms)).map
      (fun mm => (mm.subject, mm.«from».address))
    = ms.map (fun m => (m.subject, m.«from».address)) := by
    unfold MboxImporter.parseMbox
    rw [entries_messages boundary ms h]
    show ((((ms.map (segOf boundary)).enumFrom 0).map
        (fun p => MboxImporter.parseMessage (MboxImporter.dropEnvelope p.2) (p.1 + 1))).map
      (fun mm => (mm.subject, mm.«from».address))) = _
    exact parse_enum_proj boundary ms 0 h
  refine ⟨?_, hproj⟩
  have hlen := congrArg List.length hproj
  rw [List.length_map, List.length_map] at hlen
  exact hlen

/-- Witness for C2 (amended): two concrete round-trip-safe messages survive
export and import with subjects and senders intact. -/
theorem mbox_round_trip_witness :
    (MboxImporter.parseMbox (MboxExporter.messagesToMbox "B" [c2MsgA, c2MsgB])).map
        (fun mm => (mm.subject, mm.«from».address))
      = [("Hello A", "alice@x.com"), ("World B", "carol@y.com")] := by
  rw [(mbox_round_trip "B" [c2MsgA, c2MsgB] (by decide)).2]
  decide

/-- Counterexample to C2 as stated: a single message (subjects and senders
trivially distinct) whose body contains the colon-bearing line
`Subject: evil`; the importer's header scan — which skips empty lines before
the blank-line test and therefore never stops at the header/body separator —
records it as a header assignment that overrides the real subject `Good`. -/
theorem mbox_round_trip_cex :
    (MboxImporter.parseMbox (MboxExporter.messagesToMbox "B" [c2CexMsg])).length = 1 ∧
    c2CexMsg.subject = "Good" ∧
    (MboxImporter.parseMbox (MboxExporter.messagesToMbox "B" [c2CexMsg])).map
        EmailMessage.subject = ["evil"] := by
  refine ⟨by decide, by decide, by decide⟩

end Backupmail

namespace Backupmail.Providers

theorem gmailGetHeader_empty (hs : List GmailHeader) (name : String)
    (hno : ∀ hd ∈ hs, ∀ n, hd.name = some n → asciiLower n ≠ asciiLower name) :
    gmailGetHeader hs name = "" := by
  unfold gmailGetHeader
  have hf : hs.find? (fun h =>
      match h.name with
      | some n => asciiLower n == asciiLower name
      | none => false) = none := by
    rw [List.find?_eq_none]
    intro hd hmem
    cases hn : hd.name with
    | none => simp
    | some n =>
      simp only [hn, beq_iff_eq]
      exact hno hd hmem n hn
  rw [hf]
  rfl

/-- C3 (amended): when the source message carries no subject, the IMAP and
JMAP normalizations default the subject to `"(No Subject)"`, but the Gmail
normalization produces the empty string (its `getHeader` closure already
returns `''` for a missing header and `parseGmailMessage` applies no
further default). -/
theorem subject_default_on_missing :
    (∀ (parsed : ParsedMail) (uid : Nat) (folder : String), parsed.subject = none →
      (imapParseMessage parsed uid folder).subject = "(No Subject)") ∧
    (∀ (cache : List (String × JmapMailbox)) (email : JmapEmail) (folder : String),
      email.subject = none →
      (convertJmapEmail cache email folder).subject = "(No Subject)") ∧
    (∀ (b64 : String → String) (gm : GmailSchemaMessage),
      (∀ hd ∈ (gm.payload.bind GmailMessagePart.headers).getD [], ∀ n,
        hd.name = some n → asciiLower n ≠ asciiLower "Subject") →
      (parseGmailMessage b64 gm).subject = "") := by
  refine ⟨?_, ?_, ?_⟩
  · intro parsed uid folder hs
    show jsOrStr parsed.subject "(No Subject)" = "(No Subject)"
    rw [hs]
    rfl
  · intro cache email folder hs
    show jsOrStr email.subject "(No Subject)" = "(No Subject)"
    rw [hs]
    rfl
  · intro b64 gm hno
    show gmailGetHeader ((gm.payload.bind GmailMessagePart.headers).getD []) "Subject" = ""
    exact gmailGetHeader_empty _ _ hno

/-- C3 witness: the three defaults observed on concrete subject-free
messages. -/
theorem subject_default_on_missing_witness :
    (imapParseMessage c3Parsed 7 "INBOX").subject = "(No Subject)" ∧
    (convertJmapEmail [] c3Jmap "INBOX").subject = "(No Subject)" ∧
    (parseGmailMessage (fun s => s) c3Gmail).subject = "" := by
  refine ⟨subject_default_on_missing.1 c3Parsed 7 "INBOX" rfl,
    subject_default_on_missing.2.1 [] c3Jmap "INBOX" rfl,
    subject_default_on_missing.2.2 (fun s => s) c3Gmail ?_⟩
  intro hd hmem n hn
  have he : (c3Gmail.payload.bind GmailMessagePart.headers).getD []
      = [⟨some "From", some "a@b.c"⟩] := rfl
  rw [he, List.mem_singleton] at hmem
  subst hmem
  injection hn with hn2
  subst hn2
  decide

/-- C3 counterexample to the claim as stated: a Gmail message carrying no
`Subject` header normalizes to the empty subject, not `"(No Subject)"`. -/
theorem gmail_no_subject_not_defaulted_cex :
    (parseGmailMessage (fun s => s) c3Gmail).subject = "" ∧
    ("" : String) ≠ "(No Subject)" :=
  ⟨rfl, by decide⟩

end Backupmail.Providers

namespace Backupmail.Providers

/-- All six IMAP data operations reject in any disconnected state. -/
theorem imap_guards (st : ImapState) (h : st.connected = false)
    (netF : Except JsError (List Folder)) (openR : Except JsError Nat) (limit : Nat)
    (netM : Except JsError EmailMessage) (netU netC netD : Except JsError Unit) :
    imapGetFolders st netF = .error notConnectedError ∧
    imapGetMessagesPlan st openR limit = .err notConnectedError ∧
    imapGetMessage st netM = .error notConnectedError ∧
    imapUploadMessages st netU = .error notConnectedError ∧
    imapCreateFolder st netC = .error notConnectedError ∧
    imapDeleteFolder st netD = .error notConnectedError := by
  obtain ⟨p, c⟩ := st
  change c = false at h
  subst h
  exact ⟨rfl, rfl, rfl, rfl, rfl, rfl⟩

/-- All six Gmail data operations reject in any disconnected state. -/
theorem gmail_guards (st : GmailState) (h : st.connected = false)
    (netF : Except JsError (List Folder)) (netMs : Except JsError (List EmailMessage))
    (netM : Except JsError EmailMessage) (netU netC netD : Except JsError Unit) :
    gmailGetFolders st netF = .error notConnectedError ∧
    gmailGetMessages st netMs = .error notConnectedError ∧
    gmailGetMessage st netM = .error notConnectedError ∧
    gmailUploadMessages st netU = .error notConnectedError ∧
    gmailCreateFolder st netC = .error notConnectedError ∧
    gmailDeleteFolder st netD = .error notConnectedError := by
  obtain ⟨p, c⟩ := st
  change c = false at h
  subst h
  exact ⟨rfl, rfl, rfl, rfl, rfl, rfl⟩

/-- All six JMAP data operations reject in any disconnected state. -/
theorem jmap_guards (st : JmapState) (h : st.connected = false)
    (netF : Except JsError (List Folder)) (netMs : Except JsError (List EmailMessage))
    (netM : Except JsError EmailMessage) (netU netC netD : Except JsError Unit) :
    jmapGetFolders st netF = .error notConnectedError ∧
    jmapGetMessages st netMs = .error notConnectedError ∧
    jmapGetMessage st netM = .error notConnectedError ∧
    jmapUploadMessages st netU = .error notConnectedError ∧
    jmapCreateFolder st netC = .error notConnectedError ∧
    jmapDeleteFolder st netD = .error notConnectedError := by
  obtain ⟨sp, pa, mc, c⟩ := st
  change c = false at h
  subst h
  exact ⟨rfl, rfl, rfl, rfl, rfl, rfl⟩

/-- Along the real lifecycle, `ImapProvider.disconnect` always leaves the
`connected` flag cleared (its `if (this.imap)` guard never blocks the reset
in a reachable state). -/
theorem imapReach_disconnect (st : ImapState) (h : ImapReach st) :
    (imapDisconnect st).connected = false := by
  induction h with
  | init => rfl
  | connectStep o h ih => cases o <;> rfl
  | disconnectStep h ih =>
    rename_i st'
    by_cases hp : st'.imapPresent = true
    · simp [imapDisconnect, hp]
    · rw [Bool.not_eq_true] at hp
      simp [imapDisconnect, hp] at ih ⊢
      exact ih
  | testStep o h ih => cases o <;> rfl

/-- C4: the `connected` flag is false on a fresh instance and after any
reachable `disconnect()`, and in every disconnected state each of the six
data operations fails with `NotConnectedError` instead of returning data. -/
theorem not_connected_guards :
    (ImapState.init.connected = false ∧ GmailState.init.connected = false ∧
      JmapState.init.connected = false) ∧
    ((∀ st : ImapState, ImapReach st → (imapDisconnect st).connected = false) ∧
      (∀ st : GmailState, (gmailDisconnect st).connected = false) ∧
      (∀ st : JmapState, (jmapDisconnect st).connected = false)) ∧
    (∀ st : ImapState, st.connected = false →
      ∀ (netF : Except JsError (List Folder)) (openR : Except JsError Nat) (limit : Nat)
        (netM : Except JsError EmailMessage) (netU netC netD : Except JsError Unit),
      imapGetFolders st netF = .error notConnectedError ∧
      imapGetMessagesPlan st openR limit = .err notConnectedError ∧
      imapGetMessage st netM = .error notConnectedError ∧
      imapUploadMessages st netU = .error notConnectedError ∧
      imapCreateFolder st netC = .error notConnectedError ∧
      imapDeleteFolder st netD = .error notConnectedError) ∧
    (∀ st : GmailState, st.connected = false →
      ∀ (netF : Except JsError (List Folder)) (netMs : Except JsError (List EmailMessage))
        (netM : Except JsError EmailMessage) (netU netC netD : Except JsError Unit),
      gmailGetFolders st netF = .error notConnectedError ∧
      gmailGetMessages st netMs = .error notConnectedError ∧
      gmailGetMessage st netM = .error notConnectedError ∧
      gmailUploadMessages st netU = .error notConnectedError ∧
      gmailCreateFolder st netC = .error notConnectedError ∧
      gmailDeleteFolder st netD = .error notConnectedError) ∧
    (∀ st : JmapState, st.connected = false →
      ∀ (netF : Except JsError (List Folder)) (netMs : Except JsError (List EmailMessage))
        (netM : Except JsError EmailMessage) (netU netC netD : Except JsError Unit),
      jmapGetFolders st netF = .error notConnectedError ∧
      jmapGetMessages st netMs = .error notConnectedError ∧
      jmapGetMessage st netM = .error notConnectedError ∧
      jmapUploadMessages st netU = .error notConnectedError ∧
      jmapCreateFolder st netC = .error notConnectedError ∧
      jmapDeleteFolder st netD = .error notConnectedError) :=
  ⟨⟨rfl, rfl, rfl⟩, ⟨imapReach_disconnect, fun _ => rfl, fun _ => rfl⟩,
    imap_guards, gmail_guards, jmap_guards⟩

/-- C4 witness: fresh instances reject each data call and a reachable
disconnect clears the flag. -/
theorem not_connected_guards_witness :
    (imapDisconnect ImapState.init).connected = false ∧
    imapGetFolders ImapState.init (.ok []) = .error notConnectedError ∧
    gmailGetMessages GmailState.init (.ok []) = .error notConnectedError ∧
    jmapGetFolders JmapState.init (.ok []) = .error notConnectedError :=
  ⟨not_connected_guards.2.1.1 ImapState.init ImapReach.init,
   (not_connected_guards.2.2.1 ImapState.init rfl (.ok []) (.ok 0) 0 (.error ⟨"x"⟩)
     (.ok ()) (.ok ()) (.ok ())).1,
   (not_connected_guards.2.2.2.1 GmailState.init rfl (.ok []) (.ok []) (.error ⟨"x"⟩)
     (.ok ()) (.ok ()) (.ok ())).2.1,
   (not_connected_guards.2.2.2.2 JmapState.init rfl (.ok []) (.ok []) (.error ⟨"x"⟩)
     (.ok ()) (.ok ()) (.ok ())).1⟩

end Backupmail.Providers

namespace Backupmail.Providers

/-- C5: `testConnection()` returns true exactly when the underlying connect
succeeds and false on every connect failure (never propagating it); on
success the IMAP and JMAP instances are disconnected afterwards while the
Gmail instance remains connected. -/
theorem test_connection_contract :
    (∀ (st : ImapState) (o : ConnectOutcome),
      ((imapTestConnection st o).1 = true ↔ o = .success) ∧
      (o = .success → (imapTestConnection st o).2.connected = false)) ∧
    (∀ (st : GmailState) (o : ConnectOutcome),
      ((gmailTestConnection st o).1 = true ↔ o = .success) ∧
      (o = .success → (gmailTestConnection st o).2.connected = true)) ∧
    (∀ (st : JmapState) (o : JmapConnectOutcome),
      ((jmapTestConnection st o).1 = true ↔ ∃ a, o = .success a) ∧
      (∀ a, o = .success a → (jmapTestConnection st o).2.connected = false)) := by
  refine ⟨?_, ?_, ?_⟩
  · intro st o
    cases o <;> simp [imapTestConnection, imapConnect, imapDisconnect]
  · intro st o
    cases o <;> simp [gmailTestConnection, gmailConnect]
  · intro st o
    cases o <;> simp [jmapTestConnection, jmapConnect, jmapDisconnect]

/-- C5 witness: the contract evaluated on fresh instances. -/
theorem test_connection_contract_witness :
    (imapTestConnection ImapState.init .success).2.connected = false ∧
    (gmailTestConnection GmailState.init .success).2.connected = true ∧
    (jmapTestConnection JmapState.init (.success "acct")).2.connected = false :=
  ⟨(test_connection_contract.1 ImapState.init .success).2 rfl,
   (test_connection_contract.2.1 GmailState.init .success).2 rfl,
   (test_connection_contract.2.2 JmapState.init (.success "acct")).2 "acct" rfl⟩

end Backupmail.Providers

namespace Backupmail.Providers

/-- C6: with the connection up, the fetch range for a nonempty folder is
`max(1, total - limit + 1)..total` when `limit > 0` and `1..total` when
`limit = 0` (hence `1..total` whenever `limit ≥ total`), and an empty
folder resolves without issuing a fetch. -/
theorem imap_fetch_range (st : ImapState) (hc : st.connected = true)
    (total limit : Nat) :
    (1 ≤ total → 0 < limit →
      imapGetMessagesPlan st (.ok total) limit =
        .fetchRange (Int.toNat (max 1 ((total : Int) - (limit : Int) + 1))) total) ∧
    (1 ≤ total → limit = 0 →
      imapGetMessagesPlan st (.ok total) limit = .fetchRange 1 total) ∧
    (1 ≤ total → total ≤ limit →
      imapGetMessagesPlan st (.ok total) limit = .fetchRange 1 total) ∧
    imapGetMessagesPlan st (.ok 0) limit = .noFetch := by
  obtain ⟨p, c⟩ := st
  change c = true at hc
  subst hc
  have hplan : imapGetMessagesPlan ⟨p, true⟩ (.ok total) limit =
      if total = 0 then .noFetch
      else .fetchRange (if limit > 0 && limit < total then total - limit + 1 else 1) total :=
    rfl
  refine ⟨?_, ?_, ?_, rfl⟩
  · intro ht hl
    rw [hplan, if_neg (by omega)]
    by_cases hlt : limit < total
    · rw [if_pos (by simp only [Bool.and_eq_true, decide_eq_true_eq]; exact ⟨hl, hlt⟩)]
      congr 1
      omega
    · rw [if_neg (by simp only [Bool.and_eq_true, decide_eq_true_eq, not_and]; exact fun _ => hlt)]
      congr 1
      omega
  · intro ht hl
    subst hl
    rw [hplan, if_neg (by omega)]
    simp
  · intro ht hlim
    rw [hplan, if_neg (by omega),
      if_neg (by simp only [Bool.and_eq_true, decide_eq_true_eq, not_and]
                 exact fun _ h2 => absurd h2 (by omega))]

/-- C6 witness: concrete ranges for a 10-message folder with limit 3, limit
0, a limit exceeding the total, and an empty folder. -/
theorem imap_fetch_range_witness :
    imapGetMessagesPlan ⟨true, true⟩ (.ok 10) 3 = .fetchRange 8 10 ∧
    imapGetMessagesPlan ⟨true, true⟩ (.ok 10) 0 = .fetchRange 1 10 ∧
    imapGetMessagesPlan ⟨true, true⟩ (.ok 5) 9 = .fetchRange 1 5 ∧
    imapGetMessagesPlan ⟨true, true⟩ (.ok 0) 7 = .noFetch := by
  refine ⟨?_, ?_, ?_, ?_⟩
  · rw [(imap_fetch_range ⟨true, true⟩ rfl 10 3).1 (by decide) (by decide)]
    decide
  · exact (imap_fetch_range ⟨true, true⟩ rfl 10 0).2.1 (by decide) rfl
  · exact (imap_fetch_range ⟨true, true⟩ rfl 5 9).2.2.1 (by decide) (by decide)
  · exact (imap_fetch_range ⟨true, true⟩ rfl 0 7).2.2.2

end Backupmail.Providers

namespace Backupmail.Providers

/-- The keyword-conversion block depends on the keywords record only
through its four truthy lookups. -/
theorem jmapFlags_lookup (kws : Option (List (String × Bool))) :
    jmapFlags kws =
      (if recGetB (kws.getD []) "$seen" then ["\\Seen"] else []) ++
      (if recGetB (kws.getD []) "$flagged" then ["\\Flagged"] else []) ++
      (if recGetB (kws.getD []) "$answered" then ["\\Answered"] else []) ++
      (if recGetB (kws.getD []) "$draft" then ["\\Draft"] else []) := by
  cases kws with
  | none => rfl
  | some k => rfl

/-- C7: the normalized flags contain `\Seen`/`\Flagged`/`\Answered`/`\Draft`
exactly when the corresponding keyword is truthy, contain nothing else, and
every other keyword is dropped (the conversion is determined by the four
recognized lookups alone). -/
theorem jmap_keyword_flag_mapping (cache : List (String × JmapMailbox))
    (email : JmapEmail) (folder : String) :
    (∃ fl, (convertJmapEmail cache email folder).flags = some fl ∧
      (("\\Seen" ∈ fl) ↔ recGetB (email.keywords.getD []) "$seen" = true) ∧
      (("\\Flagged" ∈ fl) ↔ recGetB (email.keywords.getD []) "$flagged" = true) ∧
      (("\\Answered" ∈ fl) ↔ recGetB (email.keywords.getD []) "$answered" = true) ∧
      (("\\Draft" ∈ fl) ↔ recGetB (email.keywords.getD []) "$draft" = true) ∧
      (∀ f ∈ fl, f = "\\Seen" ∨ f = "\\Flagged" ∨ f = "\\Answered" ∨ f = "\\Draft")) ∧
    (∀ kws kws' : Option (List (String × Bool)),
      (∀ k ∈ ["$seen", "$flagged", "$answered", "$draft"],
        recGetB (kws.getD []) k = recGetB (kws'.getD []) k) →
      jmapFlags kws = jmapFlags kws') := by
  constructor
  · refine ⟨jmapFlags email.keywords, rfl, ?_⟩
    rw [jmapFlags_lookup]
    by_cases h1 : recGetB (email.keywords.getD []) "$seen" = true <;>
      by_cases h2 : recGetB (email.keywords.getD []) "$flagged" = true <;>
        by_cases h3 : recGetB (email.keywords.getD []) "$answered" = true <;>
          by_cases h4 : recGetB (email.keywords.getD []) "$draft" = true <;>
            simp [h1, h2, h3, h4]
  · intro kws kws' h
    rw [jmapFlags_lookup, jmapFlags_lookup,
      h "$seen" (by simp), h "$flagged" (by simp),
      h "$answered" (by simp), h "$draft" (by simp)]

/-- C7 witness: an unrecognized keyword contributes nothing — the flags for
`{$seen: true, custom: true}` equal those for `{$draft: false, $seen: true}`,
namely `[\Seen]`. -/
theorem jmap_keyword_flag_mapping_witness :
    jmapFlags (some [("$seen", true), ("custom", true)]) = ["\\Seen"] ∧
    jmapFlags (some [("$seen", true), ("custom", true)]) =
      jmapFlags (some [("$draft", false), ("$seen", true)]) :=
  ⟨rfl, (jmap_keyword_flag_mapping [] c7Email "INBOX").2 _ _ (by decide)⟩

end Backupmail.Providers

namespace Backupmail

theorem replChar_eq_spec (c : Char) : MboxExporter.replChar c = specReplChar c := by
  have h : MboxExporter.allowedChar c = specAllowedChar c := by
    unfold MboxExporter.allowedChar specAllowedChar
    cases ha : ('a' ≤ c && c ≤ 'z') <;> cases hA : ('A' ≤ c && c ≤ 'Z') <;>
      simp [ha, hA]
  unfold MboxExporter.replChar specReplChar
  rw [h]

theorem specCollapse_headD (d : Char) (rest : List Char) :
    (specCollapseRuns (d :: rest)).headD 'x' = d := by
  show (if d = '_' ∧ (specCollapseRuns rest).headD 'x' = '_'
      then specCollapseRuns rest else d :: specCollapseRuns rest).headD 'x' = d
  by_cases hc : d = '_' ∧ (specCollapseRuns rest).headD 'x' = '_'
  · rw [if_pos hc, hc.2, hc.1]
  · rw [if_neg hc]
    rfl

theorem collapseUnd_eq_spec : ∀ cs : List Char,
    MboxExporter.collapseUnd cs = specCollapseRuns cs := by
  intro cs
  induction cs with
  | nil => rfl
  | cons c rest ih =>
    cases rest with
    | nil =>
      show [c] = if c = '_' ∧ (specCollapseRuns []).headD 'x' = '_'
        then specCollapseRuns [] else c :: specCollapseRuns []
      rw [if_neg]
      · rfl
      · intro hcon
        exact absurd hcon.2 (by decide)
    | cons d rest' =>
      show (if c = '_' && d = '_' then MboxExporter.collapseUnd (d :: rest')
          else c :: MboxExporter.collapseUnd (d :: rest')) =
        (if c = '_' ∧ (specCollapseRuns (d :: rest')).headD 'x' = '_'
          then specCollapseRuns (d :: rest') else c :: specCollapseRuns (d :: rest'))
      rw [ih, specCollapse_headD]
      by_cases hc : c = '_' <;> by_cases hd : d = '_' <;> simp [hc, hd]

/-- C8: the folder-name sanitizer is one and the same deterministic
function across the MBOX, EML and JSON exporters, it refines the pipeline
the specification describes (replace characters outside `[A-Za-z0-9_-]`
with `'_'`, collapse underscore runs, lowercase), and it collides the
folders `Inbox/Archive` and `Inbox\Archive`. -/
theorem folder_name_sanitization :
    (∀ s, MboxExporter.sanitizeFolderName s = EmlExporter.sanitizeFolderName s) ∧
    (∀ s, MboxExporter.sanitizeFolderName s = JsonExporter.sanitizeFolderName s) ∧
    (∀ s, MboxExporter.sanitizeFolderName s = specSanitizeFolderName s) ∧
    MboxExporter.sanitizeFolderName "Inbox/Archive" =
      MboxExporter.sanitizeFolderName "Inbox\\Archive" := by
  refine ⟨fun s => rfl, fun s => rfl, ?_, by decide⟩
  intro s
  unfold MboxExporter.sanitizeFolderName specSanitizeFolderName asciiLower
  have hr : MboxExporter.replChar = specReplChar := funext replChar_eq_spec
  rw [hr, collapseUnd_eq_spec]

end Backupmail

namespace Backupmail

/-- Pairs of a mapped list zipped with its source are pointwise images. -/
theorem zip_map_self {α β : Type} (f : α → β) :
    ∀ (l : List α) (p : β × α), p ∈ (l.map f).zip l → p.1 = f p.2 := by
  intro l
  induction l with
  | nil =>
    intro p hp
    exact absurd hp (List.not_mem_nil p)
  | cons a t ih =>
    intro p hp
    simp only [List.map_cons, List.zip_cons_cons, List.mem_cons] at hp
    rcases hp with h | h
    · rw [h]
    · exact ih p h

/-- C9: the JSON export serializes every canonical field, renders each
attachment as filename/contentType/size plus a `hasContent` marker that is
true exactly when content bytes are present, and the rendered attachment
object carries no content bytes (it is independent of them). -/
theorem json_export_attachment_marker (ms : List EmailMessage) :
    ((JsonExporter.messagesToJson ms).length = ms.length) ∧
    (∀ p ∈ (JsonExporter.messagesToJson ms).zip ms,
      p.1.id = p.2.id ∧ p.1.uid = p.2.uid ∧ p.1.subject = p.2.subject ∧
      p.1.«from» = p.2.«from» ∧ p.1.«to» = p.2.«to» ∧ p.1.cc = p.2.cc ∧
      p.1.bcc = p.2.bcc ∧ p.1.date = p.2.date.toISOStringRepr ∧
      p.1.headers = p.2.headers ∧ p.1.text = p.2.text ∧ p.1.html = p.2.html ∧
      p.1.labels = p.2.labels ∧ p.1.folder = p.2.folder ∧ p.1.flags = p.2.flags ∧
      p.1.attachments.length = p.2.attachments.length ∧
      (∀ q ∈ p.1.attachments.zip p.2.attachments,
        q.1.filename = q.2.filename ∧ q.1.contentType = q.2.contentType ∧
        q.1.size = q.2.size ∧ (q.1.hasContent = true ↔ q.2.content.isSome = true))) ∧
    (∀ (a : Attachment) (b1 b2 : List Nat),
      JsonExporter.attachmentToJson { a with content := some b1 } =
        JsonExporter.attachmentToJson { a with content := some b2 }) := by
  refine ⟨by simp [JsonExporter.messagesToJson], ?_, ?_⟩
  · intro p hp
    have h1 := zip_map_self _ ms p hp
    rw [h1]
    refine ⟨rfl, rfl, rfl, rfl, rfl, rfl, rfl, rfl, rfl, rfl, rfl, rfl, rfl, rfl,
      by simp, ?_⟩
    intro q hq
    have h2 := zip_map_self JsonExporter.attachmentToJson p.2.attachments q hq
    rw [h2]
    exact ⟨rfl, rfl, rfl, Iff.rfl⟩
  · intro a b1 b2
    rfl

/-- C9 witness: for a message with one content-bearing and one content-free
attachment, the serialized markers are `[true, false]`, the subject is
preserved, and changing the bytes does not change the serialized object. -/
theorem json_export_attachment_marker_witness :
    ((JsonExporter.messagesToJson [c9Msg]).headD c9Dummy).subject = c9Msg.subject ∧
    JsonExporter.attachmentToJson { c9Att with content := some [1, 2] } =
      JsonExporter.attachmentToJson { c9Att with content := some [3] } ∧
    (JsonExporter.messagesToJson [c9Msg]).map
      (fun j => j.attachments.map JsonExporter.JsonAttachmentOut.hasContent) =
      [[true, false]] := by
  refine ⟨?_, (json_export_attachment_marker []).2.2 c9Att [1, 2] [3], by decide⟩
  have hmem : ((JsonExporter.messagesToJson [c9Msg]).headD c9Dummy, c9Msg)
      ∈ (JsonExporter.messagesToJson [c9Msg]).zip [c9Msg] :=
    List.mem_cons_self _ _
  exact ((json_export_attachment_marker [c9Msg]).2.1 _ hmem).2.2.1

end Backupmail

namespace Backupmail.Providers

/-- C10: whenever `connect()` fails, the instance is left disconnected
(`connected = false`) and each of the six data operations fails with
`NotConnectedError`; a later successful `connect()` sets the flag again. -/
theorem connect_failure_atomicity :
    (∀ (st : ImapState) (o : ConnectOutcome) (e : JsError),
      (imapConnect st o).1 = .error e →
      (imapConnect st o).2.connected = false ∧
      ∀ (netF : Except JsError (List Folder)) (openR : Except JsError Nat) (limit : Nat)
        (netM : Except JsError EmailMessage) (netU netC netD : Except JsError Unit),
        imapGetFolders (imapConnect st o).2 netF = .error notConnectedError ∧
        imapGetMessagesPlan (imapConnect st o).2 openR limit = .err notConnectedError ∧
        imapGetMessage (imapConnect st o).2 netM = .error notConnectedError ∧
        imapUploadMessages (imapConnect st o).2 netU = .error notConnectedError ∧
        imapCreateFolder (imapConnect st o).2 netC = .error notConnectedError ∧
        imapDeleteFolder (imapConnect st o).2 netD = .error notConnectedError) ∧
    (∀ (st : GmailState) (o : ConnectOutcome) (e : JsError),
      (gmailConnect st o).1 = .error e →
      (gmailConnect st o).2.connected = false ∧
      ∀ (netF : Except JsError (List Folder)) (netMs : Except JsError (List EmailMessage))
        (netM : Except JsError EmailMessage) (netU netC netD : Except JsError Unit),
        gmailGetFolders (gmailConnect st o).2 netF = .error notConnectedError ∧
        gmailGetMessages (gmailConnect st o).2 netMs = .error notConnectedError ∧
        gmailGetMessage (gmailConnect st o).2 netM = .error notConnectedError ∧
        gmailUploadMessages (gmailConnect st o).2 netU = .error notConnectedError ∧
        gmailCreateFolder (gmailConnect st o).2 netC = .error notConnectedError ∧
        gmailDeleteFolder (gmailConnect st o).2 netD = .error notConnectedError) ∧
    (∀ (st : JmapState) (o : JmapConnectOutcome) (e : JsError),
      (jmapConnect st o).1 = .error e →
      (jmapConnect st o).2.connected = false ∧
      ∀ (netF : Except JsError (List Folder)) (netMs : Except JsError (List EmailMessage))
        (netM : Except JsError EmailMessage) (netU netC netD : Except JsError Unit),
        jmapGetFolders (jmapConnect st o).2 netF = .error notConnectedError ∧
        jmapGetMessages (jmapConnect st o).2 netMs = .error notConnectedError ∧
        jmapGetMessage (jmapConnect st o).2 netM = .error notConnectedError ∧
        jmapUploadMessages (jmapConnect st o).2 netU = .error notConnectedError ∧
        jmapCreateFolder (jmapConnect st o).2 netC = .error notConnectedError ∧
        jmapDeleteFolder (jmapConnect st o).2 netD = .error notConnectedError) ∧
    ((∀ st : ImapState, (imapConnect st .success).2.connected = true) ∧
      (∀ st : GmailState, (gmailConnect st .success).2.connected = true) ∧
      (∀ (st : JmapState) (a : String), (jmapConnect st (.success a)).2.connected = true)) := by
  refine ⟨?_, ?_, ?_, fun _ => rfl, fun _ => rfl, fun _ _ => rfl⟩
  · intro st o e h
    cases o with
    | success => simp [imapConnect] at h
    | failure m =>
      exact ⟨rfl, fun netF openR limit netM netU netC netD =>
        imap_guards _ rfl netF openR limit netM netU netC netD⟩
  · intro st o e h
    cases o with
    | success => simp [gmailConnect] at h
    | failure m =>
      exact ⟨rfl, fun netF netMs netM netU netC netD =>
        gmail_guards _ rfl netF netMs netM netU netC netD⟩
  · intro st o e h
    cases o with
    | success a => simp [jmapConnect] at h
    | httpError m =>
      exact ⟨rfl, fun netF netMs netM netU netC netD =>
        jmap_guards _ rfl netF netMs netM netU netC netD⟩
    | noMailAccount =>
      exact ⟨rfl, fun netF netMs netM netU netC netD =>
        jmap_guards _ rfl netF netMs netM netU netC netD⟩

/-- C10 witness: concrete failing connects leave the flag down and reject a
data call; a successful connect raises it. -/
theorem connect_failure_atomicity_witness :
    (imapConnect ImapState.init (.failure "boom")).2.connected = false ∧
    gmailGetFolders (gmailConnect GmailState.init (.failure "boom")).2 (.ok []) =
      .error notConnectedError ∧
    (jmapConnect JmapState.init (.httpError "down")).2.connected = false ∧
    (imapConnect ImapState.init .success).2.connected = true :=
  ⟨(connect_failure_atomicity.1 ImapState.init (.failure "boom") ⟨"boom"⟩ rfl).1,
   ((connect_failure_atomicity.2.1 GmailState.init (.failure "boom")
      ⟨"Failed to connect to Gmail: " ++ "boom"⟩ rfl).2
     (.ok []) (.ok []) (.error ⟨"x"⟩) (.ok ()) (.ok ()) (.ok ())).1,
   (connect_failure_atomicity.2.2.1 JmapState.init (.httpError "down")
      ⟨"Failed to connect to JMAP: " ++ "down"⟩ rfl).1,
   connect_failure_atomicity.2.2.2.1 ImapState.init⟩

end Backupmail.Providers
